import Mathlib

/-!
# Wallet database (libraries/wallet/wallet_db.cpp)

A shallow embedding of `bts::wallet::wallet_db` and `detail::wallet_db_impl`.

* In-memory index maps (`std::unordered_map`, `std::map`) are partial functions
  `K → Option V`; `m[k] = v` is `Map.set`.
* The backing `level_map<int32_t, generic_wallet_record>` is a list of
  `(index, record)` pairs iterated front to back, `store` keeping it ordered by index.
* An operation that may throw `fc::exception` returns `Outcome α × wallet_db`: the
  state component is the state the object is left in, also when the call threw
  (C++ performs no rollback).
* `int32_t` values are integers wrapped by `to_int32`.
* A path names the records found there: `open` takes the contents of the file.
* A persisted record is a value of the sum type `generic_wallet_record`, so the
  conversion `as<T>()` of a record of type `T` cannot fail; the index of a record is
  part of its payload and is independent of the key it is stored under.
* The header declarations the file relies on (`store_record`, the methods of
  `key_data`, the constructors of the record types) and the crypto collaborators are
  not part of the file: they are modelled from the specification or taken as the
  parameter `Collaborators`.
-/

namespace bts.wallet

/-! ## Collaborator types -/

/-- Address of a public key (`bts::blockchain::address`), an uninterpreted value. -/
abbrev address := Nat

/-- Public key (`public_key_type`), an uninterpreted value. -/
abbrev public_key_type := Nat

/-- Private key (`fc::ecc::private_key`), an uninterpreted value. -/
abbrev private_key := Nat

/-- Extended private key, the decrypted master key. -/
abbrev extended_private_key := Nat

/-- Password hash (`fc::sha512`). -/
abbrev password := Nat

/-- Identifier of a balance (`balance_id_type`). -/
abbrev balance_id_type := Nat

/-- Two's-complement wrap of an integer into the `int32_t` range. -/
def to_int32 (x : Int) : Int := (x + 2147483648) % 4294967296 - 2147483648

/-- Exceptions of `fc::exception` kind, one constructor per throwing site of the file. -/
inductive fc_exception where
  | master_key_already_set
  | address_already_mapped
  | name_id_already_mapped
  | name_already_mapped
  | key_not_unique
  | not_open
  | zero_index
  | no_master_key
  | decrypt_failed
  | name_not_found
  | address_not_found
  | inconsistent_state
  | not_implemented
  | path_exists
  deriving DecidableEq, Repr

/-- Result of a call: a returned value, or a propagated exception. -/
inductive Outcome (α : Type) where
  | ok (a : α)
  | threw (e : fc_exception)
  deriving DecidableEq, Repr

/-- Whether the call returned normally. -/
def Outcome.returned {α : Type} : Outcome α → Bool
  | .ok _ => true
  | .threw _ => false

/-- Value of `fc::variant` as the file uses it: null, or an integer. -/
inductive variant where
  | null
  | int64 (v : Int)
  deriving DecidableEq, Repr

/-- Test `fc::variant::is_null`. -/
def variant.is_null : variant → Bool
  | .null => true
  | .int64 _ => false

/-- Conversion `fc::variant::as_int64`. -/
def variant.as_int64 : variant → Int
  | .null => 0
  | .int64 v => v

/-- Identifiers of properties; the two allocator counters and the remaining settings. -/
inductive property_enum where
  | next_record_number
  | next_child_key_index
  | setting (n : Nat)
  deriving DecidableEq, Repr

/-! ## Records -/

/-- Master key record: the encrypted extended private key. -/
structure wallet_master_key_record where
  index : Int
  encrypted_key : Nat
  deriving DecidableEq, Repr

/-- Account record. -/
structure wallet_account_record where
  index : Int
  name : String
  account_address : address
  registered_name_id : Int
  deriving DecidableEq, Repr

/-- Memo metadata kept with a key. -/
structure memo_data where
  memo : Nat
  deriving DecidableEq, Repr

/-- Key data: the payload of a key record. An empty `encrypted_private_key` is a
watch-only key. -/
structure key_data where
  account_address : address
  public_key : public_key_type
  encrypted_private_key : List Nat
  valid_from_signature : Bool
  memo : Option memo_data
  deriving DecidableEq, Repr

/-- Key record: key data with its record index. -/
structure wallet_key_record extends key_data where
  index : Int
  deriving DecidableEq, Repr

/-- Balance record: a cached balance with its record index. -/
structure wallet_balance_record where
  index : Int
  id : balance_id_type
  balance : Int
  deriving DecidableEq, Repr

/-- Property record. -/
structure wallet_property_record where
  index : Int
  key : property_enum
  value : variant
  deriving DecidableEq, Repr

/-- Record of a type the file never inspects (transaction, name, asset). -/
structure wallet_other_record where
  index : Int
  payload : Nat
  deriving DecidableEq, Repr

/-- Tagged record as persisted; the constructor is the `type` discriminant. -/
inductive generic_wallet_record where
  | master_key (r : wallet_master_key_record)
  | account (r : wallet_account_record)
  | key (r : wallet_key_record)
  | transaction (r : wallet_other_record)
  | balance (r : wallet_balance_record)
  | name (r : wallet_other_record)
  | asset (r : wallet_other_record)
  | property (r : wallet_property_record)
  deriving DecidableEq, Repr

/-- Index carried by the record's payload (`generic_wallet_record::get_index`). -/
def generic_wallet_record.get_index : generic_wallet_record → Int
  | .master_key r => r.index
  | .account r => r.index
  | .key r => r.index
  | .transaction r => r.index
  | .balance r => r.index
  | .name r => r.index
  | .asset r => r.index
  | .property r => r.index

/-- Modelled from the spec: the declarations of wallet_records.hpp and of the crypto
collaborators, absent from the source file. `address_of` is the `address(public_key)`
constructor, `decrypt_key` the master key decryption (none for a wrong password),
`child` the indexed child derivation, `get_public_key` the public key of a private
key, `aes_encrypt` the symmetric cipher, and `default_index` the index a wallet
record carries when it is constructed from its payload alone. -/
structure Collaborators where
  address_of : public_key_type → address
  decrypt_key : wallet_master_key_record → password → Option extended_private_key
  child : extended_private_key → Int → private_key
  get_public_key : private_key → public_key_type
  aes_encrypt : password → private_key → List Nat
  default_index : Int

/-! ## Maps and the backing store -/

/-- Assignment `m[k] = v` on a map. -/
def Map.set {K V : Type} [DecidableEq K] (m : K → Option V) (k : K) (v : V) : K → Option V :=
  fun x => if x = k then some v else m x

/-- Map without entries. -/
def Map.empty {K V : Type} : K → Option V := fun _ => none

/-- Contents of a record file: `(index, record)` pairs in iteration order. -/
abbrev record_file := List (Int × generic_wallet_record)

/-- Ordered insertion of `(k, v)`, replacing the entry of an equal key. -/
def record_file.store (k : Int) (v : generic_wallet_record) : record_file → record_file
  | [] => [(k, v)]
  | (k1, v1) :: rest =>
    if k < k1 then (k, v) :: (k1, v1) :: rest
    else if k = k1 then (k, v) :: rest
    else (k1, v1) :: record_file.store k v rest

/-- Record stored under an index, if any. -/
def record_file.fetch (k : Int) : record_file → Option generic_wallet_record
  | [] => none
  | (k1, v1) :: rest => if k1 = k then some v1 else record_file.fetch k rest

/-- Backing store `bts::db::level_map<int32_t, generic_wallet_record>`: whether it is
open, and the persisted records. -/
structure level_map where
  is_open : Bool
  data : record_file
  deriving DecidableEq, Repr

/-- State of a `wallet_db` object: the backing store of `wallet_db_impl` and the public
in-memory maps. -/
structure wallet_db where
  _records : level_map
  wallet_master_key : Option wallet_master_key_record
  keys : address → Option wallet_key_record
  address_to_account : address → Option Int
  name_id_to_account : Int → Option Int
  name_to_account : String → Option Int
  accounts : Int → Option wallet_account_record
  transactions : Nat → Option wallet_other_record
  balances : balance_id_type → Option wallet_balance_record
  names : String → Option wallet_other_record
  assets : Int → Option wallet_other_record
  properties : property_enum → Option wallet_property_record

/-- Freshly constructed object (`wallet_db::wallet_db`): nothing open, all maps empty.
The argument is what the backing store holds on disk. -/
def wallet_db.init (disk : record_file) : wallet_db :=
  { _records := { is_open := false, data := disk }
    wallet_master_key := none
    keys := Map.empty
    address_to_account := Map.empty
    name_id_to_account := Map.empty
    name_to_account := Map.empty
    accounts := Map.empty
    transactions := Map.empty
    balances := Map.empty
    names := Map.empty
    assets := Map.empty
    properties := Map.empty }

/-! ## wallet_db_impl: the record loaders -/

/-- Loader `wallet_db_impl::load_master_key_record`. -/
def load_master_key_record (db : wallet_db) (key : wallet_master_key_record) :
    Outcome Unit × wallet_db :=
  if db.wallet_master_key.isSome then (.threw .master_key_already_set, db)
  else (.ok (), { db with wallet_master_key := some key })

/-- Loader `wallet_db_impl::load_account_record`: the assignment to `accounts` comes
first, each secondary map is written after its own assertion. -/
def load_account_record (db : wallet_db) (account_to_load : wallet_account_record) :
    Outcome Unit × wallet_db :=
  let a := account_to_load
  let db1 := { db with accounts := Map.set db.accounts a.index a }
  if (db1.address_to_account a.account_address).isSome then
    (.threw .address_already_mapped, db1)
  else
    let by_address := Map.set db1.address_to_account a.account_address a.index
    let db2 := { db1 with address_to_account := by_address }
    if a.registered_name_id ≠ 0 then
      if (db2.name_id_to_account a.registered_name_id).isSome then
        (.threw .name_id_already_mapped, db2)
      else
        let by_name_id := Map.set db2.name_id_to_account a.registered_name_id a.index
        let db3 := { db2 with name_id_to_account := by_name_id }
        if (db3.name_to_account a.name).isSome then
          (.threw .name_already_mapped, db3)
        else
          (.ok (), { db3 with name_to_account := Map.set db3.name_to_account a.name a.index })
    else
      if (db2.name_to_account a.name).isSome then
        (.threw .name_already_mapped, db2)
      else
        (.ok (), { db2 with name_to_account := Map.set db2.name_to_account a.name a.index })

/-- Loader `wallet_db_impl::load_key_record`. -/
def load_key_record (C : Collaborators) (db : wallet_db) (key_to_load : wallet_key_record) :
    Outcome Unit × wallet_db :=
  let key_address := C.address_of key_to_load.public_key
  if (db.keys key_address).isSome then (.threw .key_not_unique, db)
  else (.ok (), { db with keys := Map.set db.keys key_address key_to_load })

/-! ## wallet_db -/

/-- Dispatch of one record inside the loop of `open`, by its type. -/
def load_record (C : Collaborators) (db : wallet_db) (current_record : generic_wallet_record) :
    Outcome Unit × wallet_db :=
  match current_record with
  | .master_key r => load_master_key_record db r
  | .account r => load_account_record db r
  | .key r => load_key_record C db r
  | _ => (.ok (), db)

/-- Body of the loop of `open`: load one record; an exception is caught and logged,
and the iteration goes on from the state the loader left. -/
def open_step (C : Collaborators) (db : wallet_db) (entry : Int × generic_wallet_record) :
    wallet_db :=
  (load_record C db entry.2).2

/-- Method `wallet_db::open`: open the backing store on the given file and replay its
records in iteration order. -/
def wallet_db.open_ (C : Collaborators) (db : wallet_db) (wallet_file : record_file) :
    Outcome Unit × wallet_db :=
  let db0 := { db with _records := { is_open := true, data := wallet_file } }
  (.ok (), wallet_file.foldl (open_step C) db0)

/-- Method `wallet_db::close`: close the backing store and clear every in-memory map;
the persisted records stay. -/
def wallet_db.close (db : wallet_db) : wallet_db :=
  { _records := { db._records with is_open := false }
    wallet_master_key := none
    keys := Map.empty
    address_to_account := Map.empty
    name_id_to_account := Map.empty
    name_to_account := Map.empty
    accounts := Map.empty
    transactions := Map.empty
    balances := Map.empty
    names := Map.empty
    assets := Map.empty
    properties := Map.empty }

/-- Method `wallet_db::is_open`. -/
def wallet_db.is_open (db : wallet_db) : Bool := db._records.is_open

/-- Method `wallet_db::store_generic_record`. -/
def wallet_db.store_generic_record (db : wallet_db) (index : Int)
    (record : generic_wallet_record) : Outcome Unit × wallet_db :=
  if db.is_open = false then (.threw .not_open, db)
  else if index = 0 then (.threw .zero_index, db)
  else
    let stored := record_file.store index record db._records.data
    (.ok (), { db with _records := { db._records with data := stored } })

/-- Modelled from the spec: `store_record`, the template member of wallet_db.hpp that
the file calls with typed records and that is absent from the source. It wraps the
record as a generic record and writes it through the generic record store under the
record's own index. -/
def wallet_db.store_record (db : wallet_db) (record_to_store : generic_wallet_record) :
    Outcome Unit × wallet_db :=
  db.store_generic_record record_to_store.get_index record_to_store

/-- Method `wallet_db::get_property`. -/
def wallet_db.get_property (db : wallet_db) (property_id : property_enum) : variant :=
  match db.properties property_id with
  | some r => r.value
  | none => variant.null

/-- Method `wallet_db::set_property`: replace the value of an existing property record,
or insert a record built from `wallet_property(property_id, v)`; then persist the entry. -/
def wallet_db.set_property (C : Collaborators) (db : wallet_db) (property_id : property_enum)
    (v : variant) : Outcome Unit × wallet_db :=
  let entry : wallet_property_record :=
    match db.properties property_id with
    | some r => { r with value := v }
    | none => { index := C.default_index, key := property_id, value := v }
  let db1 := { db with properties := Map.set db.properties property_id entry }
  db1.store_record (.property entry)

/-- Method `wallet_db::new_index`. -/
def wallet_db.new_index (C : Collaborators) (db : wallet_db) : Outcome Int × wallet_db :=
  let next_rec_num := db.get_property .next_record_number
  let next_rec_number : Int :=
    if next_rec_num.is_null then 1 else to_int32 next_rec_num.as_int64
  match db.set_property C .next_record_number (.int64 (to_int32 (next_rec_number + 1))) with
  | (.ok _, db1) => (.ok next_rec_number, db1)
  | (.threw e, db1) => (.threw e, db1)

/-- Method `wallet_db::new_key_child_index`. -/
def wallet_db.new_key_child_index (C : Collaborators) (db : wallet_db) :
    Outcome Int × wallet_db :=
  let next_child_idx := db.get_property .next_child_key_index
  let next_child_index : Int :=
    if next_child_idx.is_null then 1 else to_int32 next_child_idx.as_int64
  match db.set_property C .next_child_key_index (.int64 (to_int32 (next_child_index + 1))) with
  | (.ok _, db1) => (.ok next_child_index, db1)
  | (.threw e, db1) => (.threw e, db1)

/-- Sequencing of two calls: an exception of the first propagates, with the state it left. -/
def and_then {α β : Type} (r : Outcome α × wallet_db)
    (k : α → wallet_db → Outcome β × wallet_db) : Outcome β × wallet_db :=
  match r with
  | (.ok a, db) => k a db
  | (.threw e, db) => (.threw e, db)

/-- Default-constructed `key_data`. -/
def key_data.blank : key_data :=
  { account_address := 0, public_key := 0, encrypted_private_key := [],
    valid_from_signature := false, memo := none }

/-- Modelled from the spec: `key_data::get_address`, declared in wallet_records.hpp
(absent); a key is addressed by the address derived from its public key. -/
def key_data.get_address (C : Collaborators) (k : key_data) : address :=
  C.address_of k.public_key

/-- Modelled from the spec: `key_data::encrypt_private_key`, declared in
wallet_records.hpp (absent); it records the public key of the given private key and
the private key encrypted under the password. -/
def key_data.encrypt_private_key (C : Collaborators) (k : key_data) (pw : password)
    (key_to_encrypt : private_key) : key_data :=
  { k with public_key := C.get_public_key key_to_encrypt,
           encrypted_private_key := C.aes_encrypt pw key_to_encrypt }

/-- Method `wallet_db::store_key`: an existing record at the address has its key data
replaced and is persisted; otherwise a record built from the key data is persisted. -/
def wallet_db.store_key (C : Collaborators) (db : wallet_db) (key_to_store : key_data) :
    Outcome Unit × wallet_db :=
  match db.keys (key_to_store.get_address C) with
  | some old =>
    let updated : wallet_key_record := { old with tokey_data := key_to_store }
    let db1 := { db with keys := Map.set db.keys (key_to_store.get_address C) updated }
    db1.store_record (.key updated)
  | none =>
    db.store_record (.key { tokey_data := key_to_store, index := C.default_index })

/-- Method `wallet_db::new_private_key`. -/
def wallet_db.new_private_key (C : Collaborators) (db : wallet_db) (pw : password)
    (parent_account_address : address) : Outcome private_key × wallet_db :=
  match db.wallet_master_key with
  | none => (.threw .no_master_key, db)
  | some master =>
    match C.decrypt_key master pw with
    | none => (.threw .decrypt_failed, db)
    | some master_ext_priv_key =>
      and_then (db.new_key_child_index C) fun child_index db1 =>
        let new_priv_key := C.child master_ext_priv_key child_index
        let new_key0 : key_data := { key_data.blank with account_address := parent_account_address }
        let new_key := new_key0.encrypt_private_key C pw new_priv_key
        and_then (db1.store_key C new_key) fun _ db2 => (.ok new_priv_key, db2)

/-- Method `wallet_db::lookup_key`. -/
def wallet_db.lookup_key (db : wallet_db) (a : address) : Option wallet_key_record :=
  db.keys a

/-- Method `wallet_db::lookup_account`, by address. -/
def wallet_db.lookup_account (db : wallet_db) (address_of_public_key : address) :
    Outcome (Option wallet_account_record) :=
  match db.address_to_account address_of_public_key with
  | some index =>
    match db.accounts index with
    | some account => .ok (some account)
    | none => .threw .inconsistent_state
  | none => .ok none

/-- Method `wallet_db::lookup_account`, by name. -/
def wallet_db.lookup_account_by_name (db : wallet_db) (account_name : String) :
    Outcome (Option wallet_account_record) :=
  match db.name_to_account account_name with
  | some index =>
    match db.accounts index with
    | some account => .ok (some account)
    | none => .threw .inconsistent_state
  | none => .ok none

/-- Key part of `add_contact_account`: an existing key record is re-persisted with the
account address set; otherwise a key record is given a new index, stored and loaded. -/
def add_contact_key (C : Collaborators) (db : wallet_db) (new_account_key : public_key_type) :
    Outcome Unit × wallet_db :=
  match db.lookup_key (C.address_of new_account_key) with
  | some current_key =>
    let current : wallet_key_record :=
      { current_key with account_address := C.address_of new_account_key }
    db.store_record (.key current)
  | none =>
    and_then (db.new_index C) fun index db1 =>
      let new_key : wallet_key_record :=
        { key_data.blank with
          account_address := C.address_of new_account_key,
          public_key := new_account_key,
          index := index }
      and_then (db1.store_key C new_key.tokey_data) fun _ db2 =>
        load_key_record C db2 new_key

/-- Method `wallet_db::add_contact_account`. The two leading assertions require the
name and the address to be found in their maps. -/
def wallet_db.add_contact_account (C : Collaborators) (db : wallet_db)
    (new_account_name : String) (new_account_key : public_key_type) :
    Outcome Unit × wallet_db :=
  if (db.name_to_account new_account_name).isNone then (.threw .name_not_found, db)
  else if (db.address_to_account (C.address_of new_account_key)).isNone then
    (.threw .address_not_found, db)
  else
    and_then (add_contact_key C db new_account_key) fun _ db1 =>
      and_then (db1.new_index C) fun index db2 =>
        let war : wallet_account_record :=
          { index := index, name := new_account_name, registered_name_id := 0,
            account_address := C.address_of new_account_key }
        and_then (db2.store_record (.account war)) fun _ db3 =>
          load_account_record db3 war

/-- Modelled from the spec: `key_data::has_private_key`, declared in
wallet_records.hpp (absent); a key carries private-key material when its encrypted
private key is not empty, a watch-only key carries none. -/
def key_data.has_private_key (k : key_data) : Bool :=
  !k.encrypted_private_key.isEmpty

/-- Method `wallet_db::has_private_key`. -/
def wallet_db.has_private_key (db : wallet_db) (a : address) : Outcome Bool × wallet_db :=
  match db.keys a with
  | some r => (.ok r.has_private_key, db)
  | none => (.ok false, db)

/-- Balance as the blockchain reports it (`bts::blockchain::balance_record`), with the
identifier that `id()` yields. -/
structure balance_record where
  id : balance_id_type
  balance : Int
  deriving DecidableEq, Repr

/-- Method `wallet_db::lookup_balance`. -/
def wallet_db.lookup_balance (db : wallet_db) (balance_id : balance_id_type) :
    Option wallet_balance_record :=
  db.balances balance_id

/-- Method `wallet_db::cache_balance`: when no entry is found for the id, a balance
record built from the balance is persisted. -/
def wallet_db.cache_balance (C : Collaborators) (db : wallet_db)
    (balance_to_cache : balance_record) : Outcome Unit × wallet_db :=
  match db.lookup_balance balance_to_cache.id with
  | some _ => (.ok (), db)
  | none =>
    db.store_record (.balance
      { index := C.default_index, id := balance_to_cache.id,
        balance := balance_to_cache.balance })

/-- Method `wallet_db::export_to_json`: the records of the open store in iteration
order, which is what the call writes to the file. -/
def wallet_db.export_to_json (db : wallet_db) : Outcome (List generic_wallet_record) :=
  if db.is_open = false then .threw .not_open
  else .ok (db._records.data.map fun e => e.2)

/-- Loop of `create_from_json`: store every imported record under the index it
carries; the first failing store ends the loop. -/
def store_imported (db : wallet_db) : List generic_wallet_record → Outcome Unit × wallet_db
  | [] => (.ok (), db)
  | r :: rest =>
    and_then (db.store_generic_record r.get_index r) fun _ db1 => store_imported db1 rest

/-- Method `wallet_db::create_from_json`. The second argument is the content of the file
to read, the third what is found at the path of the wallet to create (none when the
path does not exist, in which case the store opened there is empty). -/
def wallet_db.create_from_json (C : Collaborators) (db : wallet_db)
    (input_records : List generic_wallet_record) (wallet_to_create : Option record_file) :
    Outcome Unit × wallet_db :=
  match wallet_to_create with
  | some _ => (.threw .path_exists, db)
  | none => and_then (db.open_ C []) fun _ db1 => store_imported db1 input_records

/-- Method `wallet_db::rename_account`: its only statement is an assertion that fails. -/
def wallet_db.rename_account (db : wallet_db) (_old_account_name _new_account_name : String) :
    Outcome Unit × wallet_db :=
  (.threw .not_implemented, db)

/-- Method `wallet_db::store_transaction`: its only statement is an assertion that
fails. -/
def wallet_db.store_transaction (db : wallet_db) (_trx_to_store : wallet_other_record) :
    Outcome Unit × wallet_db :=
  (.threw .not_implemented, db)

/-- States reachable from the empty database by `open` (on any file),
`add_contact_account` (with any arguments, returning or throwing) and `close`. -/
inductive Reachable (C : Collaborators) : wallet_db → Prop where
  | empty : Reachable C (wallet_db.init [])
  | open_ (db : wallet_db) (wallet_file : record_file) :
      Reachable C db → Reachable C (db.open_ C wallet_file).2
  | add_contact_account (db : wallet_db) (name : String) (key : public_key_type) :
      Reachable C db → Reachable C (db.add_contact_account C name key).2
  | close (db : wallet_db) : Reachable C db → Reachable C db.close

/-! ## Auxiliary definitions used by the statements -/

/-- Index under which `set_property` persists the entry of a property: the index of
the record already in `properties`, or that of a newly constructed record. -/
def property_index (C : Collaborators) (db : wallet_db) (property_id : property_enum) : Int :=
  match db.properties property_id with
  | some r => r.index
  | none => C.default_index

/-- Results of `n` consecutive calls of `new_index`, and the final state. -/
def new_index_n (C : Collaborators) : Nat → wallet_db → List (Outcome Int) × wallet_db
  | 0, db => ([], db)
  | n + 1, db =>
    let first := db.new_index C
    let rest := new_index_n C n first.2
    (first.1 :: rest.1, rest.2)

/-- Results of `n` consecutive calls of `new_key_child_index`, and the final state. -/
def new_key_child_index_n (C : Collaborators) : Nat → wallet_db → List (Outcome Int) × wallet_db
  | 0, db => ([], db)
  | n + 1, db =>
    let first := db.new_key_child_index C
    let rest := new_key_child_index_n C n first.2
    (first.1 :: rest.1, rest.2)

/-- Collaborators used for concrete evaluations: fresh records carry index 7, a master
key decrypts under the password equal to its stored value. -/
def demo : Collaborators :=
  { address_of := fun k => k + 100
    decrypt_key := fun m pw => if pw = m.encrypted_key then some (m.encrypted_key + 1) else none
    child := fun e i => 1000 * e + i.toNat
    get_public_key := fun p => p + 1
    aes_encrypt := fun pw k => [pw, k]
    default_index := 7 }

/-- Empty database, opened on an empty file. -/
def empty_open_db : wallet_db := ((wallet_db.init []).open_ demo []).2

/-- Open database whose record counter was set to `-4294967296` by `set_property`. -/
def low_counter_db : wallet_db :=
  (empty_open_db.set_property demo .next_record_number (.int64 (-4294967296))).2

/-- Database after one call of `new_index` on the empty open database. -/
def used_db : wallet_db := (empty_open_db.new_index demo).2

/-- Database `used_db` closed and opened again on the records it had persisted. -/
def reopened_db : wallet_db := (used_db.close.open_ demo used_db._records.data).2

/-- Master key records of a file, in iteration order. -/
def master_key_records (f : record_file) : List wallet_master_key_record :=
  f.filterMap fun e => match e.2 with
    | .master_key r => some r
    | _ => none

/-- Account records of a file, in iteration order. -/
def account_records (f : record_file) : List wallet_account_record :=
  f.filterMap fun e => match e.2 with
    | .account r => some r
    | _ => none

/-- Key records of a file, in iteration order. -/
def key_records (f : record_file) : List wallet_key_record :=
  f.filterMap fun e => match e.2 with
    | .key r => some r
    | _ => none

/-- Two account records collide on no unique attribute: index, name, address, and
registered name id when both ids are nonzero. -/
def accounts_distinct (a b : wallet_account_record) : Prop :=
  a.index ≠ b.index ∧ a.name ≠ b.name ∧ a.account_address ≠ b.account_address ∧
  (a.registered_name_id ≠ 0 → b.registered_name_id ≠ 0 →
    a.registered_name_id ≠ b.registered_name_id)

instance accounts_distinct_decidable (a b : wallet_account_record) :
    Decidable (accounts_distinct a b) := by
  unfold accounts_distinct
  infer_instance

/-- Valid record set: at most one master key record, account records pairwise
distinct in index, name, address and nonzero registered name id, key records with
pairwise distinct addresses. -/
def valid_file (C : Collaborators) (f : record_file) : Prop :=
  (master_key_records f).length ≤ 1 ∧
  (account_records f).Pairwise accounts_distinct ∧
  (key_records f).Pairwise fun a b => C.address_of a.public_key ≠ C.address_of b.public_key

instance valid_file_decidable (C : Collaborators) (f : record_file) :
    Decidable (valid_file C f) := by
  unfold valid_file
  infer_instance

/-- A valid file: a master key, two accounts (one with a registered name id), a
watch-only key and a balance. -/
def valid_demo_file : record_file :=
  [ (1, .master_key { index := 1, encrypted_key := 42 }),
    (2, .account { index := 2, name := "alice", account_address := 500,
                   registered_name_id := 0 }),
    (3, .account { index := 3, name := "bob", account_address := 501,
                   registered_name_id := 9 }),
    (4, .key { key_data.blank with public_key := 400, index := 4 }),
    (5, .balance { index := 5, id := 77, balance := 10 }) ]

/-- The in-memory maps hold exactly the given master key, account and key records. -/
def maps_match (C : Collaborators) (db : wallet_db) (ms : List wallet_master_key_record)
    (accts : List wallet_account_record) (ks : List wallet_key_record) : Prop :=
  (∀ m, db.wallet_master_key = some m ↔ m ∈ ms) ∧
  (∀ i a, db.accounts i = some a ↔ a ∈ accts ∧ a.index = i) ∧
  (∀ x i, db.address_to_account x = some i ↔
    ∃ a ∈ accts, a.account_address = x ∧ a.index = i) ∧
  (∀ s i, db.name_to_account s = some i ↔ ∃ a ∈ accts, a.name = s ∧ a.index = i) ∧
  (∀ n i, db.name_id_to_account n = some i ↔
    ∃ a ∈ accts, a.registered_name_id = n ∧ n ≠ 0 ∧ a.index = i) ∧
  (∀ x k, db.keys x = some k ↔ k ∈ ks ∧ C.address_of k.public_key = x)

/-- Every entry of the secondary maps and of `keys` stems from one of the given
account or key records. -/
def maps_supported (C : Collaborators) (db : wallet_db) (accts : List wallet_account_record)
    (ks : List wallet_key_record) : Prop :=
  (∀ x i, db.address_to_account x = some i → ∃ b ∈ accts, b.account_address = x) ∧
  (∀ s i, db.name_to_account s = some i → ∃ b ∈ accts, b.name = s) ∧
  (∀ n i, db.name_id_to_account n = some i → ∃ b ∈ accts, b.registered_name_id = n) ∧
  (∀ x k, db.keys x = some k → ∃ b ∈ ks, C.address_of b.public_key = x)

/-- The account record is held by all in-memory account maps. -/
def account_present (db : wallet_db) (a : wallet_account_record) : Prop :=
  db.accounts a.index = some a ∧
  db.address_to_account a.account_address = some a.index ∧
  db.name_to_account a.name = some a.index ∧
  (a.registered_name_id ≠ 0 → db.name_id_to_account a.registered_name_id = some a.index)

/-- A file with a second master key record (its loader fails) followed by two account
records that carry the same index 5 under different names and addresses. -/
def reused_index_file : record_file :=
  [ (1, .master_key { index := 1, encrypted_key := 42 }),
    (2, .master_key { index := 2, encrypted_key := 43 }),
    (3, .account { index := 5, name := "alice", account_address := 500,
                   registered_name_id := 0 }),
    (4, .account { index := 5, name := "carol", account_address := 501,
                   registered_name_id := 0 }) ]

instance account_present_decidable (db : wallet_db) (a : wallet_account_record) :
    Decidable (account_present db a) := by
  unfold account_present
  infer_instance

/-- The first account record of `reused_index_file`. -/
def alice_record : wallet_account_record :=
  { index := 5, name := "alice", account_address := 500, registered_name_id := 0 }

/-- A file with a failing second master key record, then an account and a key record
that collide with nothing. -/
def recovering_file : record_file :=
  [ (1, .master_key { index := 1, encrypted_key := 42 }),
    (2, .master_key { index := 2, encrypted_key := 43 }),
    (3, .account alice_record),
    (4, .key { key_data.blank with public_key := 400, index := 4 }) ]

/-- An account "alice" at address 500, followed by an account "bob" at the same
address. -/
def duplicate_address_file : record_file :=
  [ (1, .account { index := 1, name := "alice", account_address := 500,
                   registered_name_id := 0 }),
    (2, .account { index := 2, name := "bob", account_address := 500,
                   registered_name_id := 0 }) ]

/-- The second account record of `duplicate_address_file`. -/
def bob_record : wallet_account_record :=
  { index := 2, name := "bob", account_address := 500, registered_name_id := 0 }

/-- An account record with a new address and a name that is already taken. -/
def second_alice_record : wallet_account_record :=
  { index := 3, name := "alice", account_address := 502, registered_name_id := 0 }

/-- Database opened on the first record of `duplicate_address_file` only. -/
def alice_db : wallet_db :=
  ((wallet_db.init []).open_ demo (duplicate_address_file.take 1)).2

/-- Every entry of a secondary account index points to an index present in `accounts`. -/
def secondary_indices_consistent (db : wallet_db) : Prop :=
  (∀ x i, db.address_to_account x = some i → (db.accounts i).isSome = true) ∧
  (∀ s i, db.name_to_account s = some i → (db.accounts i).isSome = true) ∧
  (∀ n i, db.name_id_to_account n = some i → (db.accounts i).isSome = true)

/-- The account maps of the second state are those of the first. -/
def same_account_maps (db db1 : wallet_db) : Prop :=
  db1.accounts = db.accounts ∧ db1.address_to_account = db.address_to_account ∧
  db1.name_to_account = db.name_to_account ∧ db1.name_id_to_account = db.name_id_to_account

/-- Index under which `store_key` persists the record of an address: the index of the
record already in `keys`, or that of a newly constructed record. -/
def key_index (C : Collaborators) (db : wallet_db) (a : address) : Int :=
  match db.keys a with
  | some r => r.index
  | none => C.default_index

/-- Open database holding one master key, which decrypts under password 42. -/
def master_db : wallet_db :=
  ((wallet_db.init []).open_ demo [(1, .master_key { index := 1, encrypted_key := 42 })]).2

/-- Database `master_db` after `set_property` put `4294967301` into the child counter. -/
def high_child_counter_db : wallet_db :=
  (master_db.set_property demo .next_child_key_index (.int64 4294967301)).2

/-- Collaborators under which a newly constructed record carries index 0. -/
def zero_index_demo : Collaborators := { demo with default_index := 0 }

/-- Database opened on a master key and a key record that carries index 0 and sits at
the address of the first derived key (public key 43002, address 43102). -/
def zero_index_derived_key_db : wallet_db :=
  ((wallet_db.init []).open_ demo
    [(1, .master_key { index := 1, encrypted_key := 42 }),
     (5, .key { key_data.blank with public_key := 43002, index := 0 })]).2

/-- Database that holds a master key while its backing store is not open. -/
def closed_master_db : wallet_db :=
  { wallet_db.init [] with wallet_master_key := some { index := 1, encrypted_key := 42 } }

/-- The entries of a store are in strictly ascending order of their keys, as an
ordered map iterates them. -/
def record_file.ordered (f : record_file) : Prop :=
  f.Pairwise fun a b => a.1 < b.1

/-- Every record of the store is kept under the index it carries, which is not 0. -/
def record_file.self_indexed (f : record_file) : Prop :=
  ∀ e ∈ f, e.2.get_index = e.1 ∧ e.1 ≠ 0

instance record_file_ordered_decidable (f : record_file) : Decidable f.ordered := by
  unfold record_file.ordered
  infer_instance

instance record_file_self_indexed_decidable (f : record_file) : Decidable f.self_indexed := by
  unfold record_file.self_indexed
  infer_instance

/-- Open database whose store holds, under key 1, an account record that carries
index 2 (written by `store_generic_record`). -/
def mismatched_key_db : wallet_db :=
  (empty_open_db.store_generic_record 1
    (.account { index := 2, name := "alice", account_address := 500,
                registered_name_id := 0 })).2

/-- Open database whose store holds, under key 1, an account record that carries
index 0. -/
def zero_payload_db : wallet_db :=
  (empty_open_db.store_generic_record 1
    (.account { index := 0, name := "alice", account_address := 500,
                registered_name_id := 0 })).2

/-- Open database after two calls of `new_index` and one store of an account record. -/
def exported_db : wallet_db :=
  (((empty_open_db.new_index demo).2.new_index demo).2.store_record
    (.account { index := 2, name := "alice", account_address := 500,
                registered_name_id := 0 })).2

/-- An ordered file with an account record, then two master key records. -/
def two_master_keys_file : record_file :=
  [ (2, .account { index := 2, name := "alice", account_address := 500,
                   registered_name_id := 0 }),
    (3, .master_key { index := 3, encrypted_key := 42 }),
    (6, .master_key { index := 6, encrypted_key := 43 }) ]

/-- Database opened on a file whose only record is a key record that carries index 0;
the record is held in `keys` at address 500. -/
def zero_index_key_db : wallet_db :=
  ((wallet_db.init []).open_ demo
    [(5, .key { key_data.blank with public_key := 400, index := 0 })]).2

/-- Database that holds a key record at address 500 while its store is not open. -/
def closed_key_db : wallet_db :=
  { wallet_db.init [] with
    keys := Map.set Map.empty 500 { key_data.blank with public_key := 400, index := 4 } }

/-- Key data for the public key 400 with private-key material and an account address. -/
def restored_key : key_data :=
  { key_data.blank with
    public_key := 400, account_address := 900, encrypted_private_key := [1, 2] }

/-- Database `alice_db` after `set_property` put `-1` into the record counter. -/
def negative_counter_db : wallet_db :=
  (alice_db.set_property demo .next_record_number (.int64 (-1))).2

/-- The exception is one that `store_generic_record` throws. -/
def store_exception (e : fc_exception) : Prop :=
  e = .not_open ∨ e = .zero_index

/-- Database opened on a file whose only record is a watch-only key record under
index 5; the record is held in `keys` at address 500. -/
def key_db : wallet_db :=
  ((wallet_db.init []).open_ demo
    [(5, .key { key_data.blank with public_key := 400, index := 5 })]).2

/-! ## Theorems -/

/-! ### Properties and the allocator counters -/

theorem to_int32_of_range (v : Int) (h_lo : -2147483648 ≤ v) (h_hi : v ≤ 2147483647) :
    to_int32 v = v := by
  unfold to_int32
  omega

theorem set_property_outcome (C : Collaborators) (db : wallet_db) (id : property_enum)
    (v : variant) (h_open : db.is_open = true) (h_idx : property_index C db id ≠ 0) :
    (db.set_property C id v).1 = .ok () := by
  unfold property_index at h_idx
  unfold wallet_db.set_property wallet_db.store_record wallet_db.store_generic_record
  cases h : db.properties id <;>
    simp_all [wallet_db.is_open, generic_wallet_record.get_index]

theorem set_property_get (C : Collaborators) (db : wallet_db) (id : property_enum)
    (v : variant) : (db.set_property C id v).2.get_property id = v := by
  unfold wallet_db.set_property wallet_db.store_record wallet_db.store_generic_record
    wallet_db.get_property
  cases h : db.properties id <;> simp [Map.set] <;> split_ifs <;> simp [Map.set]

theorem set_property_is_open (C : Collaborators) (db : wallet_db) (id : property_enum)
    (v : variant) : (db.set_property C id v).2.is_open = db.is_open := by
  unfold wallet_db.set_property wallet_db.store_record wallet_db.store_generic_record
    wallet_db.is_open
  cases h : db.properties id <;> simp <;> split_ifs <;> simp

theorem set_property_index (C : Collaborators) (db : wallet_db) (id id2 : property_enum)
    (v : variant) :
    property_index C (db.set_property C id v).2 id2 = property_index C db id2 := by
  unfold wallet_db.set_property wallet_db.store_record wallet_db.store_generic_record
    property_index
  by_cases h_id : id2 = id
  · subst h_id
    cases h : db.properties id2 <;> simp [Map.set] <;> split_ifs <;> simp [Map.set, h]
  · cases h : db.properties id <;> simp [Map.set] <;> split_ifs <;> simp [Map.set, h_id]


theorem new_index_step (C : Collaborators) (db : wallet_db) (v : Int)
    (h_open : db.is_open = true)
    (h_idx : property_index C db .next_record_number ≠ 0)
    (h_v : db.get_property .next_record_number = .int64 v ∨
      (db.get_property .next_record_number = .null ∧ v = 1))
    (h_lo : -2147483648 ≤ v) (h_hi : v < 2147483647) :
    (db.new_index C).1 = .ok v ∧
    (db.new_index C).2.get_property .next_record_number = .int64 (v + 1) ∧
    (db.new_index C).2.is_open = true ∧
    property_index C (db.new_index C).2 .next_record_number ≠ 0 := by
  have h_cur : (if (db.get_property .next_record_number).is_null then (1 : Int)
      else to_int32 (db.get_property .next_record_number).as_int64) = v := by
    rcases h_v with h | ⟨h, rfl⟩
    · rw [h]
      simp [variant.is_null, variant.as_int64, to_int32_of_range v h_lo (by omega)]
    · rw [h]
      simp [variant.is_null]
  have h_next : to_int32 (v + 1) = v + 1 := to_int32_of_range _ (by omega) (by omega)
  have h_ok := set_property_outcome C db .next_record_number (.int64 (v + 1)) h_open h_idx
  have h_get := set_property_get C db .next_record_number (.int64 (v + 1))
  have h_op := set_property_is_open C db .next_record_number (.int64 (v + 1))
  have h_ix := set_property_index C db .next_record_number .next_record_number (.int64 (v + 1))
  unfold wallet_db.new_index
  simp only [h_cur, h_next]
  rcases h_sp : db.set_property C .next_record_number (.int64 (v + 1)) with ⟨o, db1⟩
  rw [h_sp] at h_ok h_get h_op h_ix
  simp only at h_ok
  subst h_ok
  exact ⟨rfl, h_get, h_op.trans h_open, by rw [h_ix]; exact h_idx⟩

theorem new_key_child_index_step (C : Collaborators) (db : wallet_db) (v : Int)
    (h_open : db.is_open = true)
    (h_idx : property_index C db .next_child_key_index ≠ 0)
    (h_v : db.get_property .next_child_key_index = .int64 v ∨
      (db.get_property .next_child_key_index = .null ∧ v = 1))
    (h_lo : -2147483648 ≤ v) (h_hi : v < 2147483647) :
    (db.new_key_child_index C).1 = .ok v ∧
    (db.new_key_child_index C).2.get_property .next_child_key_index = .int64 (v + 1) ∧
    (db.new_key_child_index C).2.is_open = true ∧
    property_index C (db.new_key_child_index C).2 .next_child_key_index ≠ 0 := by
  have h_cur : (if (db.get_property .next_child_key_index).is_null then (1 : Int)
      else to_int32 (db.get_property .next_child_key_index).as_int64) = v := by
    rcases h_v with h | ⟨h, rfl⟩
    · rw [h]
      simp [variant.is_null, variant.as_int64, to_int32_of_range v h_lo (by omega)]
    · rw [h]
      simp [variant.is_null]
  have h_next : to_int32 (v + 1) = v + 1 := to_int32_of_range _ (by omega) (by omega)
  have h_ok := set_property_outcome C db .next_child_key_index (.int64 (v + 1)) h_open h_idx
  have h_get := set_property_get C db .next_child_key_index (.int64 (v + 1))
  have h_op := set_property_is_open C db .next_child_key_index (.int64 (v + 1))
  have h_ix := set_property_index C db .next_child_key_index .next_child_key_index (.int64 (v + 1))
  unfold wallet_db.new_key_child_index
  simp only [h_cur, h_next]
  rcases h_sp : db.set_property C .next_child_key_index (.int64 (v + 1)) with ⟨o, db1⟩
  rw [h_sp] at h_ok h_get h_op h_ix
  simp only at h_ok
  subst h_ok
  exact ⟨rfl, h_get, h_op.trans h_open, by rw [h_ix]; exact h_idx⟩


theorem new_index_n_from (C : Collaborators) (n : Nat) :
    ∀ (db : wallet_db) (v : Int), db.is_open = true →
      property_index C db .next_record_number ≠ 0 →
      (db.get_property .next_record_number = .int64 v ∨
        (db.get_property .next_record_number = .null ∧ v = 1)) →
      -2147483648 ≤ v → v + n ≤ 2147483647 →
      (new_index_n C n db).1 = (List.range n).map (fun (i : Nat) => Outcome.ok (v + (i : Int))) := by
  induction n with
  | zero => intro db v _ _ _ _ _; simp [new_index_n]
  | succ n ih =>
    intro db v h_open h_idx h_v h_lo h_hi
    obtain ⟨h1, h2, h3, h4⟩ := new_index_step C db v h_open h_idx h_v h_lo (by omega)
    have h_rest := ih (db.new_index C).2 (v + 1) h3 h4 (Or.inl h2) (by omega) (by omega)
    simp only [new_index_n, h1, h_rest, List.range_succ_eq_map, List.map_cons, List.map_map]
    simp only [Nat.cast_zero, add_zero, List.cons.injEq, true_and]
    apply List.map_congr_left
    intro i _
    simp only [Function.comp, Nat.succ_eq_add_one, Nat.cast_add, Nat.cast_one]
    congr 1
    omega

theorem new_key_child_index_n_from (C : Collaborators) (n : Nat) :
    ∀ (db : wallet_db) (v : Int), db.is_open = true →
      property_index C db .next_child_key_index ≠ 0 →
      (db.get_property .next_child_key_index = .int64 v ∨
        (db.get_property .next_child_key_index = .null ∧ v = 1)) →
      -2147483648 ≤ v → v + n ≤ 2147483647 →
      (new_key_child_index_n C n db).1 = (List.range n).map (fun (i : Nat) => Outcome.ok (v + (i : Int))) := by
  induction n with
  | zero => intro db v _ _ _ _ _; simp [new_key_child_index_n]
  | succ n ih =>
    intro db v h_open h_idx h_v h_lo h_hi
    obtain ⟨h1, h2, h3, h4⟩ := new_key_child_index_step C db v h_open h_idx h_v h_lo (by omega)
    have h_rest := ih (db.new_key_child_index C).2 (v + 1) h3 h4 (Or.inl h2) (by omega) (by omega)
    simp only [new_key_child_index_n, h1, h_rest, List.range_succ_eq_map, List.map_cons, List.map_map]
    simp only [Nat.cast_zero, add_zero, List.cons.injEq, true_and]
    apply List.map_congr_left
    intro i _
    simp only [Function.comp, Nat.succ_eq_add_one, Nat.cast_add, Nat.cast_one]
    congr 1
    omega


theorem property_index_of_empty (C : Collaborators) (db : wallet_db) (id : property_enum)
    (h_empty : ∀ p, db.properties p = none) : property_index C db id = C.default_index := by
  simp [property_index, h_empty id]

theorem get_property_of_empty (db : wallet_db) (id : property_enum)
    (h_empty : ∀ p, db.properties p = none) : db.get_property id = .null := by
  simp [wallet_db.get_property, h_empty id]

/-- C1 (amended). On an open database whose counter record carries a nonzero index and
whose counter holds `v` with `-2^31 ≤ v < 2^31 - 1` (`v = 1` when the property reads
null), `new_index` and `new_key_child_index` return `v` and afterwards `get_property`
of the same id yields `v + 1`; on an open database without properties, where new
records carry a nonzero index, `n < 2^31 - 1` consecutive calls return `1, 2, ..., n`. -/
theorem allocators_return_counter_and_advance (C : Collaborators) (db : wallet_db)
    (h_open : db.is_open = true) :
    (∀ v : Int, property_index C db .next_record_number ≠ 0 →
      (db.get_property .next_record_number = .int64 v ∨
        (db.get_property .next_record_number = .null ∧ v = 1)) →
      -2147483648 ≤ v → v < 2147483647 →
      (db.new_index C).1 = .ok v ∧
      (db.new_index C).2.get_property .next_record_number = .int64 (v + 1)) ∧
    (∀ v : Int, property_index C db .next_child_key_index ≠ 0 →
      (db.get_property .next_child_key_index = .int64 v ∨
        (db.get_property .next_child_key_index = .null ∧ v = 1)) →
      -2147483648 ≤ v → v < 2147483647 →
      (db.new_key_child_index C).1 = .ok v ∧
      (db.new_key_child_index C).2.get_property .next_child_key_index = .int64 (v + 1)) ∧
    (∀ n : Nat, (∀ p, db.properties p = none) → C.default_index ≠ 0 → (n : Int) < 2147483647 →
      (new_index_n C n db).1 = (List.range n).map (fun (i : Nat) => Outcome.ok (1 + (i : Int))) ∧
      (new_key_child_index_n C n db).1 =
        (List.range n).map (fun (i : Nat) => Outcome.ok (1 + (i : Int)))) := by
  refine ⟨?_, ?_, ?_⟩
  · intro v h_idx h_v h_lo h_hi
    obtain ⟨h1, h2, _⟩ := new_index_step C db v h_open h_idx h_v h_lo h_hi
    exact ⟨h1, h2⟩
  · intro v h_idx h_v h_lo h_hi
    obtain ⟨h1, h2, _⟩ := new_key_child_index_step C db v h_open h_idx h_v h_lo h_hi
    exact ⟨h1, h2⟩
  · intro n h_empty h_def h_n
    constructor
    · exact new_index_n_from C n db 1 h_open
        (by rw [property_index_of_empty C db _ h_empty]; exact h_def)
        (Or.inr ⟨get_property_of_empty db _ h_empty, rfl⟩) (by omega) (by omega)
    · exact new_key_child_index_n_from C n db 1 h_open
        (by rw [property_index_of_empty C db _ h_empty]; exact h_def)
        (Or.inr ⟨get_property_of_empty db _ h_empty, rfl⟩) (by omega) (by omega)

/-- Witness of C1 on the empty open database: the first call returns 1 and leaves the
counter at 2, and three calls return 1, 2, 3. -/
theorem allocators_return_counter_and_advance_witness :
    empty_open_db.is_open = true ∧
    (empty_open_db.new_index demo).1 = .ok 1 ∧
    (empty_open_db.new_index demo).2.get_property .next_record_number = .int64 2 ∧
    (new_index_n demo 3 empty_open_db).1 = [.ok 1, .ok 2, .ok 3] :=
  have h := allocators_return_counter_and_advance demo empty_open_db rfl
  ⟨rfl, (h.1 1 (by decide) (Or.inr ⟨rfl, rfl⟩) (by decide) (by decide)).1,
    (h.1 1 (by decide) (Or.inr ⟨rfl, rfl⟩) (by decide) (by decide)).2,
    (h.2.2 3 (fun _ => rfl) (by decide) (by decide)).1⟩

/-- Counterexample to C1 as stated. On the freshly constructed, not yet opened
database `new_index` throws instead of returning 1; on an open database whose counter
holds `-4294967296` it returns 0 and leaves the counter at 1; where a newly constructed
property record carries index 0, `new_index` on the empty open database throws. -/
theorem new_index_counterexample :
    ((wallet_db.init []).new_index demo).1 = .threw .not_open ∧
    ((wallet_db.init []).new_key_child_index demo).1 = .threw .not_open ∧
    low_counter_db.get_property .next_record_number = .int64 (-4294967296) ∧
    (low_counter_db.new_index demo).1 = .ok 0 ∧
    (low_counter_db.new_index demo).2.get_property .next_record_number = .int64 1 ∧
    (((wallet_db.init []).open_ zero_index_demo []).2.new_index zero_index_demo).1 =
      .threw .zero_index := by
  decide


/-! ### Loading records -/

theorem load_account_record_frame (db : wallet_db) (a : wallet_account_record) :
    (load_account_record db a).2.properties = db.properties ∧
    (load_account_record db a).2._records = db._records ∧
    (load_account_record db a).2.keys = db.keys ∧
    (load_account_record db a).2.wallet_master_key = db.wallet_master_key := by
  unfold load_account_record
  simp only
  split_ifs <;> simp

theorem load_record_frame (C : Collaborators) (db : wallet_db) (r : generic_wallet_record) :
    (load_record C db r).2.properties = db.properties ∧
    (load_record C db r).2._records = db._records := by
  cases r <;> simp only [load_record, and_self]
  · unfold load_master_key_record
    split_ifs <;> simp
  · exact ⟨(load_account_record_frame db _).1, (load_account_record_frame db _).2.1⟩
  · unfold load_key_record
    simp only
    split_ifs <;> simp

theorem open_fold_frame (C : Collaborators) (f : record_file) :
    ∀ db : wallet_db, (f.foldl (open_step C) db).properties = db.properties ∧
      (f.foldl (open_step C) db)._records = db._records := by
  induction f with
  | nil => intro db; simp
  | cons e f ih =>
    intro db
    simp only [List.foldl_cons]
    obtain ⟨h1, h2⟩ := ih (open_step C db e)
    obtain ⟨h3, h4⟩ := load_record_frame C db e.2
    exact ⟨h1.trans h3, h2.trans h4⟩

/-- C2, the behaviour of the code. After `close` and `open`, of whatever file, every
property reads null: `open` replays no property record, so both allocators start
again. On the database that allocated index 1 and persisted the counter value 2, the
reopened database hands out index 1 again. -/
theorem reopen_restarts_counters :
    (∀ (C : Collaborators) (db : wallet_db) (wallet_file : record_file) (id : property_enum),
      (db.close.open_ C wallet_file).2.get_property id = .null) ∧
    (empty_open_db.new_index demo).1 = .ok 1 ∧
    used_db._records.data =
      [(7, .property { index := 7, key := .next_record_number, value := .int64 2 })] ∧
    reopened_db._records.data = used_db._records.data ∧
    (reopened_db.new_index demo).1 = .ok 1 ∧
    (reopened_db.new_key_child_index demo).1 = .ok 1 := by
  refine ⟨?_, by decide, by decide, by decide, by decide, by decide⟩
  intro C db wallet_file id
  have h := (open_fold_frame C wallet_file
    { db.close with _records := { is_open := true, data := wallet_file } }).1
  simp only [wallet_db.open_, wallet_db.get_property, h]
  rfl


theorem map_set_graph {K V : Type} [DecidableEq K] (m : K → Option V) (k : K) (v : V)
    (S T : K → V → Prop) (h_m : ∀ x y, m x = some y ↔ S x y) (h_fresh : ∀ y, ¬ S k y)
    (h_T : ∀ x y, T x y ↔ S x y ∨ (x = k ∧ y = v)) :
    ∀ x y, Map.set m k v x = some y ↔ T x y := by
  intro x y
  rw [h_T]
  unfold Map.set
  by_cases h : x = k
  · subst h
    simp only [if_true, Option.some.injEq, true_and]
    constructor
    · intro h1; exact Or.inr h1.symm
    · rintro (h1 | h1)
      · exact absurd h1 (h_fresh y)
      · exact h1.symm
  · simp only [h, if_false, false_and, or_false]
    exact h_m x y

theorem maps_match_master (C : Collaborators) (db : wallet_db) (m : wallet_master_key_record)
    (accts : List wallet_account_record) (ks : List wallet_key_record)
    (h : maps_match C db [] accts ks) :
    maps_match C (load_master_key_record db m).2 [m] accts ks := by
  obtain ⟨h1, h2⟩ := h
  have h_none : db.wallet_master_key = none := by
    cases h_k : db.wallet_master_key with
    | none => rfl
    | some k => exact absurd ((h1 k).1 h_k) (List.not_mem_nil k)
  unfold load_master_key_record
  simp only [h_none, Option.isSome_none, Bool.false_eq_true, if_false]
  refine ⟨?_, h2⟩
  intro k
  simp only [Option.some.injEq, List.mem_singleton]
  exact eq_comm

theorem maps_match_key (C : Collaborators) (db : wallet_db) (k : wallet_key_record)
    (ms : List wallet_master_key_record) (accts : List wallet_account_record)
    (ks : List wallet_key_record) (h : maps_match C db ms accts ks)
    (h_new : ∀ b ∈ ks, C.address_of b.public_key ≠ C.address_of k.public_key) :
    maps_match C (load_key_record C db k).2 ms accts (ks ++ [k]) := by
  obtain ⟨h1, h2, h3, h4, h5, h6⟩ := h
  have h_none : db.keys (C.address_of k.public_key) = none := by
    cases h_k : db.keys (C.address_of k.public_key) with
    | none => rfl
    | some b => exact absurd ((h6 _ b).1 h_k).2 (h_new b ((h6 _ b).1 h_k).1)
  unfold load_key_record
  simp only [h_none, Option.isSome_none, Bool.false_eq_true, if_false]
  refine ⟨h1, h2, h3, h4, h5, ?_⟩
  apply map_set_graph db.keys _ _ _ _ h6
  · rintro y ⟨hy, hy2⟩
    exact h_new y hy hy2
  · intro x y
    simp only [List.mem_append, List.mem_singleton]
    constructor
    · rintro ⟨hy | hy, hx⟩
      · exact Or.inl ⟨hy, hx⟩
      · subst hy; exact Or.inr ⟨hx.symm, rfl⟩
    · rintro (⟨hy, hx⟩ | ⟨hx, hy⟩)
      · exact ⟨Or.inl hy, hx⟩
      · subst hy; exact ⟨Or.inr rfl, hx.symm⟩


theorem load_account_record_fresh (db : wallet_db) (a : wallet_account_record)
    (h_addr : db.address_to_account a.account_address = none)
    (h_name : db.name_to_account a.name = none)
    (h_id : a.registered_name_id ≠ 0 → db.name_id_to_account a.registered_name_id = none) :
    load_account_record db a = (.ok (),
      { db with
        accounts := Map.set db.accounts a.index a
        address_to_account := Map.set db.address_to_account a.account_address a.index
        name_id_to_account :=
          if a.registered_name_id ≠ 0 then
            Map.set db.name_id_to_account a.registered_name_id a.index
          else db.name_id_to_account
        name_to_account := Map.set db.name_to_account a.name a.index }) := by
  unfold load_account_record
  by_cases h0 : a.registered_name_id = 0
  · simp [h_addr, h_name, h0]
  · simp [h_addr, h_name, h0, h_id h0]

theorem maps_match_account (C : Collaborators) (db : wallet_db) (a : wallet_account_record)
    (ms : List wallet_master_key_record) (accts : List wallet_account_record)
    (ks : List wallet_key_record) (h : maps_match C db ms accts ks)
    (h_new : ∀ b ∈ accts, accounts_distinct b a) :
    maps_match C (load_account_record db a).2 ms (accts ++ [a]) ks := by
  obtain ⟨h1, h2, h3, h4, h5, h6⟩ := h
  have h_addr : db.address_to_account a.account_address = none := by
    cases h_k : db.address_to_account a.account_address with
    | none => rfl
    | some i =>
      obtain ⟨b, hb, hb2, _⟩ := (h3 _ i).1 h_k
      exact absurd hb2 (h_new b hb).2.2.1
  have h_name : db.name_to_account a.name = none := by
    cases h_k : db.name_to_account a.name with
    | none => rfl
    | some i =>
      obtain ⟨b, hb, hb2, _⟩ := (h4 _ i).1 h_k
      exact absurd hb2 (h_new b hb).2.1
  have h_id : a.registered_name_id ≠ 0 →
      db.name_id_to_account a.registered_name_id = none := by
    intro h0
    cases h_k : db.name_id_to_account a.registered_name_id with
    | none => rfl
    | some i =>
      obtain ⟨b, hb, hb2, _⟩ := (h5 _ i).1 h_k
      exact absurd hb2 ((h_new b hb).2.2.2 (by rw [hb2]; exact h0) h0)
  rw [load_account_record_fresh db a h_addr h_name h_id]
  refine ⟨h1, ?_, ?_, ?_, ?_, h6⟩
  · apply map_set_graph db.accounts _ _ _ _ h2
    · rintro y ⟨hy, hy2⟩
      exact (h_new y hy).1 hy2
    · intro x y
      simp only [List.mem_append, List.mem_singleton]
      constructor
      · rintro ⟨hy | hy, hx⟩
        · exact Or.inl ⟨hy, hx⟩
        · subst hy; exact Or.inr ⟨hx.symm, rfl⟩
      · rintro (⟨hy, hx⟩ | ⟨hx, hy⟩)
        · exact ⟨Or.inl hy, hx⟩
        · subst hy; exact ⟨Or.inr rfl, hx.symm⟩
  · apply map_set_graph db.address_to_account _ _ _ _ h3
    · rintro y ⟨b, hb, hb2, _⟩
      exact (h_new b hb).2.2.1 hb2
    · intro x y
      simp only [List.mem_append, List.mem_singleton]
      constructor
      · rintro ⟨b, hb | hb, hx, hy⟩
        · exact Or.inl ⟨b, hb, hx, hy⟩
        · subst hb; exact Or.inr ⟨hx.symm, hy.symm⟩
      · rintro (⟨b, hb, hx, hy⟩ | ⟨hx, hy⟩)
        · exact ⟨b, Or.inl hb, hx, hy⟩
        · exact ⟨a, Or.inr rfl, hx.symm, hy.symm⟩
  · apply map_set_graph db.name_to_account _ _ _ _ h4
    · rintro y ⟨b, hb, hb2, _⟩
      exact (h_new b hb).2.1 hb2
    · intro x y
      simp only [List.mem_append, List.mem_singleton]
      constructor
      · rintro ⟨b, hb | hb, hx, hy⟩
        · exact Or.inl ⟨b, hb, hx, hy⟩
        · subst hb; exact Or.inr ⟨hx.symm, hy.symm⟩
      · rintro (⟨b, hb, hx, hy⟩ | ⟨hx, hy⟩)
        · exact ⟨b, Or.inl hb, hx, hy⟩
        · exact ⟨a, Or.inr rfl, hx.symm, hy.symm⟩
  · by_cases h0 : a.registered_name_id = 0
    · simp only [h0, ne_eq, not_true_eq_false, if_false]
      intro n i
      rw [h5 n i]
      simp only [List.mem_append, List.mem_singleton]
      constructor
      · rintro ⟨b, hb, hx⟩
        exact ⟨b, Or.inl hb, hx⟩
      · rintro ⟨b, hb | hb, hx, hn, hy⟩
        · exact ⟨b, hb, hx, hn, hy⟩
        · subst hb; exact absurd (hx.symm.trans h0) hn
    · simp only [ne_eq, h0, not_false_eq_true, if_true]
      apply map_set_graph db.name_id_to_account _ _ _ _ h5
      · rintro y ⟨b, hb, hb2, _⟩
        exact (h_new b hb).2.2.2 (by rw [hb2]; exact h0) h0 hb2
      · intro x y
        simp only [List.mem_append, List.mem_singleton]
        constructor
        · rintro ⟨b, hb | hb, hx, hn, hy⟩
          · exact Or.inl ⟨b, hb, hx, hn, hy⟩
          · subst hb; exact Or.inr ⟨hx.symm, hy.symm⟩
        · rintro (⟨b, hb, hx, hn, hy⟩ | ⟨hx, hy⟩)
          · exact ⟨b, Or.inl hb, hx, hn, hy⟩
          · exact ⟨a, Or.inr rfl, hx.symm, by rw [hx]; exact h0, hy.symm⟩


theorem records_append_singleton (P : record_file) (k : Int) (rec : generic_wallet_record) :
    master_key_records (P ++ [(k, rec)]) = master_key_records P ++ master_key_records [(k, rec)] ∧
    account_records (P ++ [(k, rec)]) = account_records P ++ account_records [(k, rec)] ∧
    key_records (P ++ [(k, rec)]) = key_records P ++ key_records [(k, rec)] := by
  simp [master_key_records, account_records, key_records, List.filterMap_append]

theorem open_step_matches (C : Collaborators) (db : wallet_db) (P r : record_file)
    (e : Int × generic_wallet_record)
    (h : maps_match C db (master_key_records P) (account_records P) (key_records P))
    (h_valid : valid_file C (P ++ e :: r)) :
    maps_match C (open_step C db e) (master_key_records (P ++ [e]))
      (account_records (P ++ [e])) (key_records (P ++ [e])) := by
  obtain ⟨k, rec⟩ := e
  obtain ⟨v1, v2, v3⟩ := h_valid
  obtain ⟨e1, e2, e3⟩ := records_append_singleton P k rec
  rw [e1, e2, e3]
  cases rec with
  | master_key m =>
    simp only [master_key_records, List.filterMap_append, List.filterMap_cons,
      List.length_append, List.length_cons] at v1
    have h_nil : master_key_records P = [] := by
      apply List.eq_nil_of_length_eq_zero
      unfold master_key_records
      omega
    rw [h_nil] at h ⊢
    have h2 := maps_match_master C db m _ _ h
    simpa [open_step, load_record, master_key_records, account_records, key_records] using h2
  | account a =>
    simp only [account_records, List.filterMap_append, List.filterMap_cons,
      List.pairwise_append] at v2
    have h2 := maps_match_account C db a _ _ _ h (fun b hb => v2.2.2 b hb a (by simp))
    simpa [open_step, load_record, master_key_records, account_records, key_records] using h2
  | key kr =>
    simp only [key_records, List.filterMap_append, List.filterMap_cons,
      List.pairwise_append] at v3
    have h2 := maps_match_key C db kr _ _ _ h (fun b hb => v3.2.2 b hb kr (by simp))
    simpa [open_step, load_record, master_key_records, account_records, key_records] using h2
  | transaction t =>
    simpa [open_step, load_record, master_key_records, account_records, key_records] using h
  | balance t =>
    simpa [open_step, load_record, master_key_records, account_records, key_records] using h
  | name t =>
    simpa [open_step, load_record, master_key_records, account_records, key_records] using h
  | asset t =>
    simpa [open_step, load_record, master_key_records, account_records, key_records] using h
  | property t =>
    simpa [open_step, load_record, master_key_records, account_records, key_records] using h

theorem open_fold_matches (C : Collaborators) (r : record_file) :
    ∀ (P : record_file) (db : wallet_db),
      maps_match C db (master_key_records P) (account_records P) (key_records P) →
      valid_file C (P ++ r) →
      maps_match C (r.foldl (open_step C) db) (master_key_records (P ++ r))
        (account_records (P ++ r)) (key_records (P ++ r)) := by
  induction r with
  | nil => intro P db h _; simpa using h
  | cons e r ih =>
    intro P db h h_valid
    have h_step := open_step_matches C db P r e h h_valid
    have h_rest := ih (P ++ [e]) (open_step C db e) h_step (by simpa using h_valid)
    simpa using h_rest

theorem maps_match_init (C : Collaborators) (db : wallet_db)
    (h_mk : db.wallet_master_key = none) (h_acc : ∀ i, db.accounts i = none)
    (h_addr : ∀ x, db.address_to_account x = none) (h_name : ∀ s, db.name_to_account s = none)
    (h_id : ∀ n, db.name_id_to_account n = none) (h_keys : ∀ x, db.keys x = none) :
    maps_match C db [] [] [] := by
  simp [maps_match, h_mk, h_acc, h_addr, h_name, h_id, h_keys]

/-- C3. For every valid record file, `open` on a freshly constructed database returns
and leaves index maps that hold exactly the stored records: `wallet_master_key` is the
master key record, `accounts` maps each account's index to the account,
`address_to_account` and `name_to_account` map its address and name to its index,
`name_id_to_account` holds exactly the accounts with a nonzero registered name id, and
`keys` maps the address of each key record's public key to the record. -/
theorem open_reconstructs_index_maps (C : Collaborators) (disk wallet_file : record_file)
    (h_valid : valid_file C wallet_file) :
    ((wallet_db.init disk).open_ C wallet_file).1 = .ok () ∧
    maps_match C ((wallet_db.init disk).open_ C wallet_file).2
      (master_key_records wallet_file) (account_records wallet_file)
      (key_records wallet_file) := by
  refine ⟨rfl, ?_⟩
  have h := open_fold_matches C wallet_file []
    { wallet_db.init disk with _records := { is_open := true, data := wallet_file } }
    (maps_match_init C _ rfl (fun _ => rfl) (fun _ => rfl) (fun _ => rfl) (fun _ => rfl)
      (fun _ => rfl))
    (by simpa using h_valid)
  simpa [wallet_db.open_] using h

/-- Witness of C3 on a file with a master key, two accounts, a key and a balance. -/
theorem open_reconstructs_index_maps_witness :
    valid_file demo valid_demo_file ∧
    maps_match demo ((wallet_db.init []).open_ demo valid_demo_file).2
      (master_key_records valid_demo_file) (account_records valid_demo_file)
      (key_records valid_demo_file) ∧
    ((wallet_db.init []).open_ demo valid_demo_file).2.name_to_account "bob" = some 3 :=
  have h := open_reconstructs_index_maps demo [] valid_demo_file (by decide)
  ⟨by decide, h.2,
    (h.2.2.2.2.1 "bob" 3).2
      ⟨{ index := 3, name := "bob", account_address := 501, registered_name_id := 9 },
        by decide, rfl, rfl⟩⟩


theorem load_account_record_stable (db : wallet_db) (a : wallet_account_record) :
    (∀ x i, db.address_to_account x = some i →
      (load_account_record db a).2.address_to_account x = some i) ∧
    (∀ s i, db.name_to_account s = some i →
      (load_account_record db a).2.name_to_account s = some i) ∧
    (∀ n i, db.name_id_to_account n = some i →
      (load_account_record db a).2.name_id_to_account n = some i) ∧
    (∀ i r, db.accounts i = some r → i ≠ a.index →
      (load_account_record db a).2.accounts i = some r) := by
  unfold load_account_record
  simp only
  refine ⟨?_, ?_, ?_, ?_⟩
  · intro x i h
    split_ifs <;> simp only [Map.set] <;> (try split_ifs) <;> simp_all
  · intro x i h
    split_ifs <;> simp only [Map.set] <;> (try split_ifs) <;> simp_all
  · intro x i h
    split_ifs <;> simp only [Map.set] <;> (try split_ifs) <;> simp_all
  · intro x i h hne
    split_ifs <;> simp only [Map.set] <;> (try split_ifs) <;> simp_all


theorem maps_supported_account (C : Collaborators) (db : wallet_db) (a : wallet_account_record)
    (accts : List wallet_account_record) (ks : List wallet_key_record)
    (h : maps_supported C db accts ks) :
    maps_supported C (load_account_record db a).2 (accts ++ [a]) ks := by
  obtain ⟨h1, h2, h3, h4⟩ := h
  unfold load_account_record
  simp only
  refine ⟨?_, ?_, ?_, ?_⟩
  · intro x i hx
    by_cases hxa : x = a.account_address
    · exact ⟨a, by simp, hxa.symm⟩
    · have : db.address_to_account x = some i := by
        split_ifs at hx <;> simp only [Map.set] at hx <;> (try split_ifs at hx) <;> simp_all
      obtain ⟨b, hb, hb2⟩ := h1 x i this
      exact ⟨b, by simp [hb], hb2⟩
  · intro x i hx
    by_cases hxa : x = a.name
    · exact ⟨a, by simp, hxa.symm⟩
    · have : db.name_to_account x = some i := by
        split_ifs at hx <;> simp only [Map.set] at hx <;> (try split_ifs at hx) <;> simp_all
      obtain ⟨b, hb, hb2⟩ := h2 x i this
      exact ⟨b, by simp [hb], hb2⟩
  · intro x i hx
    by_cases hxa : x = a.registered_name_id
    · exact ⟨a, by simp, hxa.symm⟩
    · have : db.name_id_to_account x = some i := by
        split_ifs at hx <;> simp only [Map.set] at hx <;> (try split_ifs at hx) <;> simp_all
      obtain ⟨b, hb, hb2⟩ := h3 x i this
      exact ⟨b, by simp [hb], hb2⟩
  · intro x k hx
    have : db.keys x = some k := by
      split_ifs at hx <;> simp_all
    exact h4 x k this

theorem maps_supported_key (C : Collaborators) (db : wallet_db) (k : wallet_key_record)
    (accts : List wallet_account_record) (ks : List wallet_key_record)
    (h : maps_supported C db accts ks) :
    maps_supported C (load_key_record C db k).2 accts (ks ++ [k]) := by
  obtain ⟨h1, h2, h3, h4⟩ := h
  unfold load_key_record
  simp only
  split_ifs with h_dup
  · refine ⟨h1, h2, h3, ?_⟩
    intro x r hx
    obtain ⟨b, hb, hb2⟩ := h4 x r hx
    exact ⟨b, by simp [hb], hb2⟩
  · refine ⟨h1, h2, h3, ?_⟩
    intro x r hx
    simp only [Map.set] at hx
    split_ifs at hx with hxa
    · exact ⟨k, by simp, hxa.symm⟩
    · obtain ⟨b, hb, hb2⟩ := h4 x r hx
      exact ⟨b, by simp [hb], hb2⟩

theorem load_key_record_stable (C : Collaborators) (db : wallet_db) (k : wallet_key_record) :
    (∀ x r, db.keys x = some r → (load_key_record C db k).2.keys x = some r) ∧
    (load_key_record C db k).2.accounts = db.accounts ∧
    (load_key_record C db k).2.address_to_account = db.address_to_account ∧
    (load_key_record C db k).2.name_to_account = db.name_to_account ∧
    (load_key_record C db k).2.name_id_to_account = db.name_id_to_account := by
  unfold load_key_record
  simp only
  split_ifs with h_dup
  · simp
  · refine ⟨?_, rfl, rfl, rfl, rfl⟩
    intro x r hx
    simp only [Map.set]
    split_ifs with hxa
    · subst hxa
      simp [hx] at h_dup
    · exact hx

theorem load_master_key_record_frame (db : wallet_db) (m : wallet_master_key_record) :
    (load_master_key_record db m).2.keys = db.keys ∧
    (load_master_key_record db m).2.accounts = db.accounts ∧
    (load_master_key_record db m).2.address_to_account = db.address_to_account ∧
    (load_master_key_record db m).2.name_to_account = db.name_to_account ∧
    (load_master_key_record db m).2.name_id_to_account = db.name_id_to_account := by
  unfold load_master_key_record
  split_ifs <;> simp


theorem open_step_supported (C : Collaborators) (db : wallet_db) (P : record_file)
    (e : Int × generic_wallet_record)
    (h : maps_supported C db (account_records P) (key_records P)) :
    maps_supported C (open_step C db e) (account_records (P ++ [e])) (key_records (P ++ [e])) := by
  obtain ⟨k, rec⟩ := e
  obtain ⟨_, e2, e3⟩ := records_append_singleton P k rec
  rw [e2, e3]
  cases rec with
  | master_key m =>
    obtain ⟨f1, _, f3, f4, f5⟩ := load_master_key_record_frame db m
    simpa [open_step, load_record, account_records, key_records, maps_supported, f1, f3, f4, f5]
      using h
  | account a =>
    simpa [open_step, load_record, account_records, key_records]
      using maps_supported_account C db a _ _ h
  | key kr =>
    simpa [open_step, load_record, account_records, key_records]
      using maps_supported_key C db kr _ _ h
  | transaction t => simpa [open_step, load_record, account_records, key_records] using h
  | balance t => simpa [open_step, load_record, account_records, key_records] using h
  | name t => simpa [open_step, load_record, account_records, key_records] using h
  | asset t => simpa [open_step, load_record, account_records, key_records] using h
  | property t => simpa [open_step, load_record, account_records, key_records] using h

theorem open_fold_supported (C : Collaborators) (r : record_file) :
    ∀ (P : record_file) (db : wallet_db),
      maps_supported C db (account_records P) (key_records P) →
      maps_supported C (r.foldl (open_step C) db) (account_records (P ++ r))
        (key_records (P ++ r)) := by
  induction r with
  | nil => intro P db h; simpa using h
  | cons e r ih =>
    intro P db h
    have h_rest := ih (P ++ [e]) (open_step C db e) (open_step_supported C db P e h)
    simpa using h_rest

theorem open_step_stable (C : Collaborators) (db : wallet_db)
    (e : Int × generic_wallet_record) :
    (∀ x i, db.address_to_account x = some i →
      (open_step C db e).address_to_account x = some i) ∧
    (∀ s i, db.name_to_account s = some i → (open_step C db e).name_to_account s = some i) ∧
    (∀ n i, db.name_id_to_account n = some i →
      (open_step C db e).name_id_to_account n = some i) ∧
    (∀ x r, db.keys x = some r → (open_step C db e).keys x = some r) ∧
    (∀ i r, db.accounts i = some r → (∀ b ∈ account_records [e], b.index ≠ i) →
      (open_step C db e).accounts i = some r) := by
  obtain ⟨k, rec⟩ := e
  cases rec with
  | master_key m =>
    obtain ⟨f1, f2, f3, f4, f5⟩ := load_master_key_record_frame db m
    simp only [open_step, load_record, f1, f2, f3, f4, f5]
    exact ⟨fun _ _ h => h, fun _ _ h => h, fun _ _ h => h, fun _ _ h => h, fun _ _ h _ => h⟩
  | account a =>
    obtain ⟨s1, s2, s3, s4⟩ := load_account_record_stable db a
    simp only [open_step, load_record, (load_account_record_frame db a).2.2.1]
    refine ⟨s1, s2, s3, fun _ _ h => h, ?_⟩
    intro i r h h_ne
    exact s4 i r h (fun h_eq => h_ne a (by simp [account_records]) h_eq.symm)
  | key kr =>
    obtain ⟨s1, f2, f3, f4, f5⟩ := load_key_record_stable C db kr
    simp only [open_step, load_record, f2, f3, f4, f5]
    exact ⟨fun _ _ h => h, fun _ _ h => h, fun _ _ h => h, s1, fun _ _ h _ => h⟩
  | transaction t =>
    exact ⟨fun _ _ h => h, fun _ _ h => h, fun _ _ h => h, fun _ _ h => h, fun _ _ h _ => h⟩
  | balance t =>
    exact ⟨fun _ _ h => h, fun _ _ h => h, fun _ _ h => h, fun _ _ h => h, fun _ _ h _ => h⟩
  | name t =>
    exact ⟨fun _ _ h => h, fun _ _ h => h, fun _ _ h => h, fun _ _ h => h, fun _ _ h _ => h⟩
  | asset t =>
    exact ⟨fun _ _ h => h, fun _ _ h => h, fun _ _ h => h, fun _ _ h => h, fun _ _ h _ => h⟩
  | property t =>
    exact ⟨fun _ _ h => h, fun _ _ h => h, fun _ _ h => h, fun _ _ h => h, fun _ _ h _ => h⟩

theorem open_fold_stable (C : Collaborators) (r : record_file) :
    ∀ db : wallet_db,
      (∀ x i, db.address_to_account x = some i →
        (r.foldl (open_step C) db).address_to_account x = some i) ∧
      (∀ s i, db.name_to_account s = some i →
        (r.foldl (open_step C) db).name_to_account s = some i) ∧
      (∀ n i, db.name_id_to_account n = some i →
        (r.foldl (open_step C) db).name_id_to_account n = some i) ∧
      (∀ x k, db.keys x = some k → (r.foldl (open_step C) db).keys x = some k) ∧
      (∀ i a, db.accounts i = some a → (∀ b ∈ account_records r, b.index ≠ i) →
        (r.foldl (open_step C) db).accounts i = some a) := by
  induction r with
  | nil =>
    intro db
    exact ⟨fun _ _ h => h, fun _ _ h => h, fun _ _ h => h, fun _ _ h => h, fun _ _ h _ => h⟩
  | cons e r ih =>
    intro db
    obtain ⟨s1, s2, s3, s4, s5⟩ := open_step_stable C db e
    obtain ⟨t1, t2, t3, t4, t5⟩ := ih (open_step C db e)
    have h_split : account_records (e :: r) = account_records [e] ++ account_records r := by
      simp [account_records, ← List.filterMap_append]
    simp only [List.foldl_cons]
    refine ⟨fun x i h => t1 x i (s1 x i h), fun x i h => t2 x i (s2 x i h),
      fun x i h => t3 x i (s3 x i h), fun x k h => t4 x k (s4 x k h), ?_⟩
    intro i a h h_ne
    rw [h_split] at h_ne
    exact t5 i a (s5 i a h (fun b hb => h_ne b (List.mem_append_left _ hb)))
      (fun b hb => h_ne b (List.mem_append_right _ hb))


theorem maps_supported_init (C : Collaborators) (db : wallet_db)
    (h_addr : ∀ x, db.address_to_account x = none) (h_name : ∀ s, db.name_to_account s = none)
    (h_id : ∀ n, db.name_id_to_account n = none) (h_keys : ∀ x, db.keys x = none) :
    maps_supported C db [] [] := by
  simp [maps_supported, h_addr, h_name, h_id, h_keys]

theorem open_fold_split (C : Collaborators) (db : wallet_db) (pre post : record_file)
    (e : Int × generic_wallet_record) :
    (pre ++ e :: post).foldl (open_step C) db =
      post.foldl (open_step C) (open_step C (pre.foldl (open_step C) db) e) := by
  simp [List.foldl_append]

/-- C4 (amended). `open` returns for every file, whatever its records. An account
record that collides in index, name, address and nonzero name id with no earlier
account record, and whose index no later account record carries, is present in
`accounts`, `address_to_account`, `name_to_account` and (for a nonzero id)
`name_id_to_account` afterwards; a key record whose address collides with no earlier
key record is present in `keys` afterwards. -/
theorem open_continues_past_failing_records (C : Collaborators)
    (disk pre post : record_file) (k : Int) :
    (∀ wallet_file, ((wallet_db.init disk).open_ C wallet_file).1 = .ok ()) ∧
    (∀ a : wallet_account_record,
      (∀ b ∈ account_records pre, accounts_distinct b a) →
      (∀ b ∈ account_records post, b.index ≠ a.index) →
      account_present ((wallet_db.init disk).open_ C (pre ++ (k, .account a) :: post)).2 a) ∧
    (∀ kr : wallet_key_record,
      (∀ b ∈ key_records pre, C.address_of b.public_key ≠ C.address_of kr.public_key) →
      ((wallet_db.init disk).open_ C (pre ++ (k, .key kr) :: post)).2.keys
        (C.address_of kr.public_key) = some kr) := by
  refine ⟨fun _ => rfl, ?_, ?_⟩
  · intro a h_pre h_post
    simp only [wallet_db.open_, open_fold_split]
    generalize h_db0 : ({ wallet_db.init disk with
      _records := { is_open := true, data := pre ++ (k, .account a) :: post } } : wallet_db) = db0
    have h_sup0 : maps_supported C db0 (account_records []) (key_records []) := by
      subst h_db0
      exact maps_supported_init C _ (fun _ => rfl) (fun _ => rfl) (fun _ => rfl) (fun _ => rfl)
    have h_sup := open_fold_supported C pre [] db0 h_sup0
    simp only [List.nil_append] at h_sup
    obtain ⟨u1, u2, u3, _⟩ := h_sup
    generalize pre.foldl (open_step C) db0 = db1 at u1 u2 u3 ⊢
    have h_addr : db1.address_to_account a.account_address = none := by
      cases h_k : db1.address_to_account a.account_address with
      | none => rfl
      | some i =>
        obtain ⟨b, hb, hb2⟩ := u1 _ i h_k
        exact absurd hb2 (h_pre b hb).2.2.1
    have h_name : db1.name_to_account a.name = none := by
      cases h_k : db1.name_to_account a.name with
      | none => rfl
      | some i =>
        obtain ⟨b, hb, hb2⟩ := u2 _ i h_k
        exact absurd hb2 (h_pre b hb).2.1
    have h_id : a.registered_name_id ≠ 0 →
        db1.name_id_to_account a.registered_name_id = none := by
      intro h0
      cases h_k : db1.name_id_to_account a.registered_name_id with
      | none => rfl
      | some i =>
        obtain ⟨b, hb, hb2⟩ := u3 _ i h_k
        exact absurd hb2 ((h_pre b hb).2.2.2 (by rw [hb2]; exact h0) h0)
    have h_step : open_step C db1 (k, .account a) = (load_account_record db1 a).2 := rfl
    rw [h_step, load_account_record_fresh db1 a h_addr h_name h_id]
    obtain ⟨t1, t2, t3, _, t5⟩ := open_fold_stable C post
      { db1 with
        accounts := Map.set db1.accounts a.index a
        address_to_account := Map.set db1.address_to_account a.account_address a.index
        name_id_to_account :=
          if a.registered_name_id ≠ 0 then
            Map.set db1.name_id_to_account a.registered_name_id a.index
          else db1.name_id_to_account
        name_to_account := Map.set db1.name_to_account a.name a.index }
    refine ⟨t5 _ _ (by simp [Map.set]) h_post, t1 _ _ (by simp [Map.set]),
      t2 _ _ (by simp [Map.set]), fun h0 => t3 _ _ (by simp [Map.set, h0])⟩
  · intro kr h_pre
    simp only [wallet_db.open_, open_fold_split]
    generalize h_db0 : ({ wallet_db.init disk with
      _records := { is_open := true, data := pre ++ (k, .key kr) :: post } } : wallet_db) = db0
    have h_sup0 : maps_supported C db0 (account_records []) (key_records []) := by
      subst h_db0
      exact maps_supported_init C _ (fun _ => rfl) (fun _ => rfl) (fun _ => rfl) (fun _ => rfl)
    have h_sup := open_fold_supported C pre [] db0 h_sup0
    simp only [List.nil_append] at h_sup
    obtain ⟨_, _, _, u4⟩ := h_sup
    generalize pre.foldl (open_step C) db0 = db1 at u4 ⊢
    have h_none : db1.keys (C.address_of kr.public_key) = none := by
      cases h_k : db1.keys (C.address_of kr.public_key) with
      | none => rfl
      | some r =>
        obtain ⟨b, hb, hb2⟩ := u4 _ r h_k
        exact absurd hb2 (h_pre b hb)
    apply (open_fold_stable C post _).2.2.2.1
    simp [open_step, load_record, load_key_record, h_none, Map.set]

/-- Witness of C4: after the failing second master key record, the account and the
key record of `recovering_file` are loaded. -/
theorem open_continues_past_failing_records_witness :
    ((wallet_db.init []).open_ demo recovering_file).1 = .ok () ∧
    account_present ((wallet_db.init []).open_ demo recovering_file).2 alice_record ∧
    ((wallet_db.init []).open_ demo recovering_file).2.keys 500 =
      some { key_data.blank with public_key := 400, index := 4 } :=
  have h1 := open_continues_past_failing_records demo []
    [(1, .master_key { index := 1, encrypted_key := 42 }),
     (2, .master_key { index := 2, encrypted_key := 43 })]
    [(4, .key { key_data.blank with public_key := 400, index := 4 })] 3
  have h2 := open_continues_past_failing_records demo []
    [(1, .master_key { index := 1, encrypted_key := 42 }),
     (2, .master_key { index := 2, encrypted_key := 43 }),
     (3, .account alice_record)] [] 4
  ⟨h1.1 recovering_file, h1.2.1 alice_record (by decide) (by decide),
    h2.2.2 { key_data.blank with public_key := 400, index := 4 } (by decide)⟩

/-- Counterexample to C4 as stated. In `reused_index_file` the second master key
record fails to load; the account record that follows collides with no earlier
record, yet after `open` the entry of `accounts` at its index is the later record
that carries the same index. -/
theorem open_overwrites_reused_index :
    (load_record demo ((wallet_db.init []).open_ demo (reused_index_file.take 1)).2
      (.master_key { index := 2, encrypted_key := 43 })).1 = .threw .master_key_already_set ∧
    reused_index_file.get? 2 = some (3, .account alice_record) ∧
    (∀ b ∈ account_records (reused_index_file.take 2), accounts_distinct b alice_record) ∧
    ((wallet_db.init []).open_ demo reused_index_file).1 = .ok () ∧
    ((wallet_db.init []).open_ demo reused_index_file).2.accounts 5 =
      some { index := 5, name := "carol", account_address := 501, registered_name_id := 0 } ∧
    ¬ account_present ((wallet_db.init []).open_ demo reused_index_file).2 alice_record := by
  decide


/-! ### Duplicate accounts -/

/-- C5, the behaviour of the code. Loading an account record whose address is already
mapped throws, yet the record has been written to `accounts` before the assertion;
loading one whose name is already mapped throws after `accounts` and
`address_to_account` have been written. -/
theorem load_account_record_writes_before_rejecting :
    alice_db.address_to_account bob_record.account_address = some 1 ∧
    (load_account_record alice_db bob_record).1 = .threw .address_already_mapped ∧
    alice_db.accounts 2 = none ∧
    (load_account_record alice_db bob_record).2.accounts 2 = some bob_record ∧
    alice_db.name_to_account second_alice_record.name = some 1 ∧
    (load_account_record alice_db second_alice_record).1 = .threw .name_already_mapped ∧
    alice_db.address_to_account 502 = none ∧
    (load_account_record alice_db second_alice_record).2.accounts 3 =
      some second_alice_record ∧
    (load_account_record alice_db second_alice_record).2.address_to_account 502 = some 3 := by
  decide

/-- C6, the behaviour of the code. After `open` on `duplicate_address_file` the
account "bob" is held in `accounts`, but its address maps to index 1 and its name is
not mapped at all. -/
theorem open_keeps_rejected_account :
    ((wallet_db.init []).open_ demo duplicate_address_file).2.accounts 2 = some bob_record ∧
    ((wallet_db.init []).open_ demo duplicate_address_file).2.address_to_account
      bob_record.account_address = some 1 ∧
    ((wallet_db.init []).open_ demo duplicate_address_file).2.name_to_account
      bob_record.name = none := by
  decide

/-! ### Consistency of the secondary indices -/

theorem load_account_record_consistent (db : wallet_db) (a : wallet_account_record)
    (h : secondary_indices_consistent db) :
    secondary_indices_consistent (load_account_record db a).2 := by
  obtain ⟨h1, h2, h3⟩ := h
  unfold load_account_record
  simp only
  refine ⟨?_, ?_, ?_⟩
  · intro x i hx
    split_ifs at hx ⊢ <;> simp only [Map.set] at hx ⊢ <;> (try split_ifs at hx) <;>
      split_ifs <;> first | rfl | exact h1 x i hx | simp_all
  · intro x i hx
    split_ifs at hx ⊢ <;> simp only [Map.set] at hx ⊢ <;> (try split_ifs at hx) <;>
      split_ifs <;> first | rfl | exact h2 x i hx | simp_all
  · intro x i hx
    split_ifs at hx ⊢ <;> simp only [Map.set] at hx ⊢ <;> (try split_ifs at hx) <;>
      split_ifs <;> first | rfl | exact h3 x i hx | simp_all


theorem same_account_maps_trans (db db1 db2 : wallet_db) (h1 : same_account_maps db db1)
    (h2 : same_account_maps db1 db2) : same_account_maps db db2 :=
  ⟨h2.1.trans h1.1, h2.2.1.trans h1.2.1, h2.2.2.1.trans h1.2.2.1, h2.2.2.2.trans h1.2.2.2⟩

theorem consistent_of_same_account_maps (db db1 : wallet_db) (h : same_account_maps db db1)
    (h_inv : secondary_indices_consistent db) : secondary_indices_consistent db1 := by
  obtain ⟨e1, e2, e3, e4⟩ := h
  unfold secondary_indices_consistent
  rw [e1, e2, e3, e4]
  exact h_inv

theorem store_record_same_account_maps (db : wallet_db) (r : generic_wallet_record) :
    same_account_maps db (db.store_record r).2 := by
  unfold wallet_db.store_record wallet_db.store_generic_record same_account_maps
  split_ifs <;> simp

theorem set_property_same_account_maps (C : Collaborators) (db : wallet_db)
    (id : property_enum) (v : variant) : same_account_maps db (db.set_property C id v).2 := by
  unfold wallet_db.set_property
  exact store_record_same_account_maps _ _

theorem new_index_same_account_maps (C : Collaborators) (db : wallet_db) :
    same_account_maps db (db.new_index C).2 := by
  unfold wallet_db.new_index
  simp only
  have h := set_property_same_account_maps C db .next_record_number
    (.int64 (to_int32 ((if (db.get_property .next_record_number).is_null then (1 : Int)
      else to_int32 (db.get_property .next_record_number).as_int64) + 1)))
  rcases h_sp : db.set_property C .next_record_number
    (.int64 (to_int32 ((if (db.get_property .next_record_number).is_null then (1 : Int)
      else to_int32 (db.get_property .next_record_number).as_int64) + 1))) with ⟨o, db1⟩
  rw [h_sp] at h
  cases o <;> exact h

theorem store_key_same_account_maps (C : Collaborators) (db : wallet_db) (k : key_data) :
    same_account_maps db (db.store_key C k).2 := by
  unfold wallet_db.store_key
  cases h : db.keys (k.get_address C) with
  | none => exact store_record_same_account_maps _ _
  | some old => exact store_record_same_account_maps _ _

theorem load_key_record_same_account_maps (C : Collaborators) (db : wallet_db)
    (k : wallet_key_record) : same_account_maps db (load_key_record C db k).2 := by
  obtain ⟨_, f2, f3, f4, f5⟩ := load_key_record_stable C db k
  exact ⟨f2, f3, f4, f5⟩

theorem and_then_preserves {α β : Type} (Q : wallet_db → Prop) (r : Outcome α × wallet_db)
    (k : α → wallet_db → Outcome β × wallet_db) (h_r : Q r.2)
    (h_k : ∀ a db, Q db → Q (k a db).2) : Q (and_then r k).2 := by
  obtain ⟨o, db⟩ := r
  cases o with
  | ok a => exact h_k a db h_r
  | threw e => exact h_r

theorem add_contact_key_same_account_maps (C : Collaborators) (db : wallet_db)
    (key : public_key_type) : same_account_maps db (add_contact_key C db key).2 := by
  unfold add_contact_key
  cases h : db.lookup_key (C.address_of key) with
  | some current => exact store_record_same_account_maps _ _
  | none =>
    apply and_then_preserves (same_account_maps db) _ _ (new_index_same_account_maps C db)
    intro index db1 h1
    apply and_then_preserves (same_account_maps db) _ _
      (same_account_maps_trans _ _ _ h1 (store_key_same_account_maps C db1 _))
    intro _ db2 h2
    exact same_account_maps_trans _ _ _ h2 (load_key_record_same_account_maps C db2 _)

theorem add_contact_account_consistent (C : Collaborators) (db : wallet_db) (name : String)
    (key : public_key_type) (h : secondary_indices_consistent db) :
    secondary_indices_consistent (db.add_contact_account C name key).2 := by
  unfold wallet_db.add_contact_account
  split_ifs
  · exact h
  · exact h
  · apply and_then_preserves secondary_indices_consistent _ _
      (consistent_of_same_account_maps _ _ (add_contact_key_same_account_maps C db key) h)
    intro _ db1 h1
    apply and_then_preserves secondary_indices_consistent _ _
      (consistent_of_same_account_maps _ _ (new_index_same_account_maps C db1) h1)
    intro index db2 h2
    apply and_then_preserves secondary_indices_consistent _ _
      (consistent_of_same_account_maps _ _ (store_record_same_account_maps db2 _) h2)
    intro _ db3 h3
    exact load_account_record_consistent db3 _ h3

theorem open_step_consistent (C : Collaborators) (db : wallet_db)
    (e : Int × generic_wallet_record) (h : secondary_indices_consistent db) :
    secondary_indices_consistent (open_step C db e) := by
  obtain ⟨k, rec⟩ := e
  cases rec with
  | master_key m =>
    obtain ⟨_, f2, f3, f4, f5⟩ := load_master_key_record_frame db m
    exact consistent_of_same_account_maps db _ ⟨f2, f3, f4, f5⟩ h
  | account a => exact load_account_record_consistent db a h
  | key kr => exact consistent_of_same_account_maps db _ (load_key_record_same_account_maps C db kr) h
  | transaction t => exact h
  | balance t => exact h
  | name t => exact h
  | asset t => exact h
  | property t => exact h

theorem open_fold_consistent (C : Collaborators) (f : record_file) :
    ∀ db : wallet_db, secondary_indices_consistent db →
      secondary_indices_consistent (f.foldl (open_step C) db) := by
  induction f with
  | nil => intro db h; exact h
  | cons e f ih => intro db h; exact ih _ (open_step_consistent C db e h)

theorem reachable_consistent (C : Collaborators) (db : wallet_db) (h : Reachable C db) :
    secondary_indices_consistent db := by
  induction h with
  | empty => exact ⟨fun _ _ h => (by cases h), fun _ _ h => (by cases h), fun _ _ h => (by cases h)⟩
  | open_ db wallet_file _ ih => exact open_fold_consistent C wallet_file _ ih
  | add_contact_account db name key _ ih => exact add_contact_account_consistent C db name key ih
  | close db _ _ => exact ⟨fun _ _ h => (by cases h), fun _ _ h => (by cases h), fun _ _ h => (by cases h)⟩


/-- C7. In every state reachable from the empty database by `open`,
`add_contact_account` and `close`, every entry of `address_to_account`,
`name_to_account` and `name_id_to_account` maps to an index present in `accounts`;
`lookup_account`, by address and by name, never throws the inconsistent state error,
returns empty exactly when the address or name is absent from its map, and otherwise
returns the account stored under the mapped index. -/
theorem lookup_account_consistent_on_reachable (C : Collaborators) (db : wallet_db)
    (h : Reachable C db) :
    secondary_indices_consistent db ∧
    (∀ x, db.lookup_account x ≠ .threw .inconsistent_state ∧
      (db.lookup_account x = .ok none ↔ db.address_to_account x = none) ∧
      (∀ i, db.address_to_account x = some i →
        ∃ a, db.accounts i = some a ∧ db.lookup_account x = .ok (some a))) ∧
    (∀ s, db.lookup_account_by_name s ≠ .threw .inconsistent_state ∧
      (db.lookup_account_by_name s = .ok none ↔ db.name_to_account s = none) ∧
      (∀ i, db.name_to_account s = some i →
        ∃ a, db.accounts i = some a ∧ db.lookup_account_by_name s = .ok (some a))) := by
  have h_inv := reachable_consistent C db h
  refine ⟨h_inv, ?_, ?_⟩
  · intro x
    unfold wallet_db.lookup_account
    cases h_x : db.address_to_account x with
    | none => simp
    | some i =>
      have h_some := h_inv.1 x i h_x
      cases h_a : db.accounts i with
      | none => simp [h_a] at h_some
      | some a => simp [h_a]
  · intro s
    unfold wallet_db.lookup_account_by_name
    cases h_s : db.name_to_account s with
    | none => simp
    | some i =>
      have h_some := h_inv.2.1 s i h_s
      cases h_a : db.accounts i with
      | none => simp [h_a] at h_some
      | some a => simp [h_a]

/-- Witness of C7 on the database opened on `duplicate_address_file`. -/
theorem lookup_account_consistent_on_reachable_witness :
    Reachable demo ((wallet_db.init []).open_ demo duplicate_address_file).2 ∧
    (∃ a, ((wallet_db.init []).open_ demo duplicate_address_file).2.accounts 1 = some a ∧
      ((wallet_db.init []).open_ demo duplicate_address_file).2.lookup_account 500 =
        .ok (some a)) ∧
    ((wallet_db.init []).open_ demo duplicate_address_file).2.lookup_account_by_name "bob" =
      .ok none :=
  have h_reach : Reachable demo ((wallet_db.init []).open_ demo duplicate_address_file).2 :=
    Reachable.open_ _ _ Reachable.empty
  have h := lookup_account_consistent_on_reachable demo _ h_reach
  ⟨h_reach, (h.2.1 500).2.2 1 (by decide), ((h.2.2 "bob").2.1).2 (by decide)⟩


/-! ### add_contact_account -/

/-- C8, the behaviour of the code. The leading assertions of `add_contact_account`
require the name and the address to be present in their maps: a call with a name that
is not in `name_to_account` throws and changes nothing, and so does a call with an
address that is not in `address_to_account`. On the empty open database the contact
"alice" is rejected and cannot be looked up afterwards. -/
theorem add_contact_account_rejects_new_contact :
    (∀ (C : Collaborators) (db : wallet_db) (name : String) (key : public_key_type),
      db.name_to_account name = none →
      db.add_contact_account C name key = (.threw .name_not_found, db)) ∧
    (∀ (C : Collaborators) (db : wallet_db) (name : String) (key : public_key_type),
      db.address_to_account (C.address_of key) = none →
      (db.add_contact_account C name key).1.returned = false ∧
      (db.add_contact_account C name key).2 = db) ∧
    empty_open_db.is_open = true ∧
    empty_open_db.name_to_account "alice" = none ∧
    empty_open_db.address_to_account (demo.address_of 400) = none ∧
    (empty_open_db.add_contact_account demo "alice" 400).1 = .threw .name_not_found ∧
    (empty_open_db.add_contact_account demo "alice" 400).2.lookup_account_by_name "alice" =
      .ok none ∧
    (empty_open_db.add_contact_account demo "alice" 400).2.lookup_key (demo.address_of 400) =
      none := by
  refine ⟨?_, ?_, by decide, by decide, by decide, by decide, by decide, by decide⟩
  · intro C db name key h
    simp [wallet_db.add_contact_account, h]
  · intro C db name key h
    unfold wallet_db.add_contact_account
    split_ifs with h1 h2
    · exact ⟨rfl, rfl⟩
    · exact ⟨rfl, rfl⟩
    · simp [h] at h2

/-- C9, the behaviour of the code. On the database holding the account "alice" at
address 500, `add_contact_account` with that name and a key of that address passes
both leading assertions, allocates two indices, persists records, writes the new
account to `accounts` and the new key to `keys`, and only then throws, inside
`load_account_record`. -/
theorem add_contact_account_mutates_before_rejecting :
    alice_db.name_to_account "alice" = some 1 ∧
    alice_db.address_to_account (demo.address_of 400) = some 1 ∧
    (alice_db.add_contact_account demo "alice" 400).1 = .threw .address_already_mapped ∧
    alice_db.get_property .next_record_number = .null ∧
    (alice_db.add_contact_account demo "alice" 400).2.get_property .next_record_number =
      .int64 3 ∧
    alice_db.accounts 2 = none ∧
    (alice_db.add_contact_account demo "alice" 400).2.accounts 2 =
      some { index := 2, name := "alice", account_address := 500, registered_name_id := 0 } ∧
    alice_db.keys 500 = none ∧
    (alice_db.add_contact_account demo "alice" 400).2.keys 500 =
      some { key_data.blank with account_address := 500, public_key := 400, index := 1 } ∧
    alice_db._records.data.length = 1 ∧
    record_file.fetch 2 (alice_db.add_contact_account demo "alice" 400).2._records.data =
      some (.account { index := 2, name := "alice", account_address := 500,
                       registered_name_id := 0 }) := by
  decide


/-! ### new_private_key -/

theorem fetch_store (k : Int) (v : generic_wallet_record) (f : record_file) :
    record_file.fetch k (record_file.store k v f) = some v := by
  induction f with
  | nil => simp [record_file.store, record_file.fetch]
  | cons e f ih =>
    obtain ⟨k1, v1⟩ := e
    unfold record_file.store
    split_ifs with h1 h2
    · simp [record_file.fetch]
    · simp [record_file.fetch]
    · simp [record_file.fetch, ih, Ne.symm h2]

theorem store_record_frame (db : wallet_db) (r : generic_wallet_record) :
    (db.store_record r).2.properties = db.properties ∧
    (db.store_record r).2.keys = db.keys ∧
    (db.store_record r).2.wallet_master_key = db.wallet_master_key := by
  unfold wallet_db.store_record wallet_db.store_generic_record
  split_ifs <;> exact ⟨rfl, rfl, rfl⟩

theorem store_record_indexed (db : wallet_db) (r : generic_wallet_record)
    (h_open : db.is_open = true) (h_idx : r.get_index ≠ 0) :
    (db.store_record r).1 = .ok () ∧
    record_file.fetch r.get_index (db.store_record r).2._records.data = some r ∧
    (db.store_record r).2.is_open = true ∧
    (db.store_record r).2.properties = db.properties ∧
    (db.store_record r).2.keys = db.keys ∧
    (db.store_record r).2.wallet_master_key = db.wallet_master_key := by
  obtain ⟨f1, f2, f3⟩ := store_record_frame db r
  refine ⟨?_, ?_, ?_, f1, f2, f3⟩ <;>
    unfold wallet_db.store_record wallet_db.store_generic_record <;>
    rw [if_neg (by simp [h_open]), if_neg h_idx]
  · exact fetch_store _ _ _
  · exact h_open

theorem store_key_pointwise (C : Collaborators) (db : wallet_db) (kd : key_data)
    (h_open : db.is_open = true) (h_idx : key_index C db (kd.get_address C) ≠ 0) :
    (db.store_key C kd).1 = .ok () ∧
    (∃ i r, record_file.fetch i (db.store_key C kd).2._records.data = some (.key r) ∧
      r.tokey_data = kd) ∧
    (db.store_key C kd).2.is_open = true ∧
    (∀ a, key_index C (db.store_key C kd).2 a = key_index C db a) ∧
    (db.store_key C kd).2.properties = db.properties ∧
    (db.store_key C kd).2.wallet_master_key = db.wallet_master_key := by
  unfold key_index at h_idx
  unfold wallet_db.store_key
  cases h : db.keys (kd.get_address C) with
  | none =>
    rw [h] at h_idx
    obtain ⟨s1, s2, s3, s4, s5, s6⟩ := store_record_indexed db
      (.key { tokey_data := kd, index := C.default_index }) h_open h_idx
    refine ⟨s1, ⟨_, _, s2, rfl⟩, s3, ?_, s4, s6⟩
    intro a
    simp only [key_index, s5]
  | some old =>
    rw [h] at h_idx
    obtain ⟨s1, s2, s3, s4, s5, s6⟩ := store_record_indexed
      { db with keys := Map.set db.keys (kd.get_address C) { old with tokey_data := kd } }
      (.key { old with tokey_data := kd }) h_open h_idx
    refine ⟨s1, ⟨_, _, s2, rfl⟩, s3, ?_, s4, s6⟩
    intro a
    simp only [key_index, s5, Map.set]
    split_ifs with h_a
    · subst h_a
      simp [h]
    · rfl

theorem new_key_child_index_state (C : Collaborators) (db : wallet_db) :
    ∃ v, (db.new_key_child_index C).2 = (db.set_property C .next_child_key_index v).2 := by
  unfold wallet_db.new_key_child_index
  simp only
  refine ⟨.int64 (to_int32 ((if (db.get_property .next_child_key_index).is_null then (1 : Int)
      else to_int32 (db.get_property .next_child_key_index).as_int64) + 1)), ?_⟩
  rcases db.set_property C .next_child_key_index
    (.int64 (to_int32 ((if (db.get_property .next_child_key_index).is_null then (1 : Int)
      else to_int32 (db.get_property .next_child_key_index).as_int64) + 1))) with ⟨o, db1⟩
  cases o <;> rfl


theorem new_key_child_index_keys (C : Collaborators) (db : wallet_db) :
    (db.new_key_child_index C).2.keys = db.keys := by
  obtain ⟨v, h_state⟩ := new_key_child_index_state C db
  rw [h_state]
  unfold wallet_db.set_property
  exact (store_record_frame _ _).2.1

theorem new_key_child_index_master_key (C : Collaborators) (db : wallet_db) :
    (db.new_key_child_index C).2.wallet_master_key = db.wallet_master_key := by
  obtain ⟨v, h_state⟩ := new_key_child_index_state C db
  rw [h_state]
  unfold wallet_db.set_property
  exact (store_record_frame _ _).2.2

theorem new_private_key_step (C : Collaborators) (db : wallet_db) (pw : password)
    (A : address) (master : wallet_master_key_record) (E : extended_private_key) (k : Int)
    (h_open : db.is_open = true)
    (h_pidx : property_index C db .next_child_key_index ≠ 0)
    (h_kidx : key_index C db (C.address_of (C.get_public_key (C.child E k))) ≠ 0)
    (h_master : db.wallet_master_key = some master) (h_dec : C.decrypt_key master pw = some E)
    (h_k : db.get_property .next_child_key_index = .int64 k ∨
      (db.get_property .next_child_key_index = .null ∧ k = 1))
    (h_lo : -2147483648 ≤ k) (h_hi : k < 2147483647) :
    (db.new_private_key C pw A).1 = .ok (C.child E k) ∧
    (db.new_private_key C pw A).2.get_property .next_child_key_index = .int64 (k + 1) ∧
    (∃ i r, record_file.fetch i (db.new_private_key C pw A).2._records.data = some (.key r) ∧
      r.account_address = A) ∧
    (db.new_private_key C pw A).2.is_open = true ∧
    property_index C (db.new_private_key C pw A).2 .next_child_key_index ≠ 0 ∧
    (∀ a, key_index C (db.new_private_key C pw A).2 a = key_index C db a) ∧
    (db.new_private_key C pw A).2.wallet_master_key = some master := by
  obtain ⟨n1, n2, n3, n4⟩ := new_key_child_index_step C db k h_open h_pidx h_k h_lo h_hi
  have n5 := new_key_child_index_keys C db
  have n6 := new_key_child_index_master_key C db
  unfold wallet_db.new_private_key
  simp only [h_master, h_dec]
  rcases h_nk : db.new_key_child_index C with ⟨o, db1⟩
  rw [h_nk] at n1 n2 n3 n4 n5 n6
  simp only at n1 n2 n3 n4 n5 n6
  subst n1
  simp only [and_then]
  have h_same : ∀ a, key_index C db1 a = key_index C db a := by
    intro a
    simp only [key_index, n5]
  obtain ⟨s1, ⟨i, r, s2, s2b⟩, s3, s4, s5, s6⟩ := store_key_pointwise C db1
    (({ key_data.blank with account_address := A } : key_data).encrypt_private_key C pw
      (C.child E k)) n3 (by rw [h_same]; exact h_kidx)
  rcases h_sk : db1.store_key C
    (({ key_data.blank with account_address := A } : key_data).encrypt_private_key C pw
      (C.child E k)) with ⟨o2, db2⟩
  rw [h_sk] at s1 s2 s3 s4 s5 s6
  simp only at s1 s2 s3 s4 s5 s6
  subst s1
  refine ⟨rfl, ?_, ⟨i, r, s2, ?_⟩, s3, ?_, ?_, ?_⟩
  · simp only [wallet_db.get_property, s5]
    exact n2
  · rw [key_data.encrypt_private_key] at s2b
    have := congrArg key_data.account_address s2b
    simpa using this
  · simp only [property_index, s5]
    exact n4
  · intro a
    rw [s4 a, h_same a]
  · simp only [s6, n6, h_master]

/-- C10 (amended). On an open database with a master key that decrypts under `pw` to
`E` and a child counter holding `k`, `-2^31 ≤ k < 2^31 - 1` (`k = 1` when unset), where
the record of the child counter and the key record at the address of the derived key
(the one in memory, or the newly constructed one) carry a nonzero index,
`new_private_key pw A` returns `E.child k`, advances the counter to `k + 1` and
persists a key record whose account address is `A`. Without properties, and when the
key record at the address of `E.child 2` carries a nonzero index as well, two
consecutive calls return `E.child 1` and `E.child 2`, which differ when child
derivation is injective in the index. -/
theorem new_private_key_derives_next_child (C : Collaborators) (db : wallet_db)
    (pw : password) (A : address) (master : wallet_master_key_record)
    (E : extended_private_key) (k : Int)
    (h_open : db.is_open = true)
    (h_pidx : property_index C db .next_child_key_index ≠ 0)
    (h_kidx : key_index C db (C.address_of (C.get_public_key (C.child E k))) ≠ 0)
    (h_master : db.wallet_master_key = some master) (h_dec : C.decrypt_key master pw = some E)
    (h_k : db.get_property .next_child_key_index = .int64 k ∨
      (db.get_property .next_child_key_index = .null ∧ k = 1))
    (h_lo : -2147483648 ≤ k) (h_hi : k < 2147483647) :
    (db.new_private_key C pw A).1 = .ok (C.child E k) ∧
    (db.new_private_key C pw A).2.get_property .next_child_key_index = .int64 (k + 1) ∧
    (∃ i r, record_file.fetch i (db.new_private_key C pw A).2._records.data = some (.key r) ∧
      r.account_address = A) ∧
    ((∀ p, db.properties p = none) →
      key_index C db (C.address_of (C.get_public_key (C.child E 2))) ≠ 0 →
      ∀ A2 : address,
        (db.new_private_key C pw A).1 = .ok (C.child E 1) ∧
        ((db.new_private_key C pw A).2.new_private_key C pw A2).1 = .ok (C.child E 2) ∧
        (Function.Injective (C.child E) →
          (db.new_private_key C pw A).1 ≠
            ((db.new_private_key C pw A).2.new_private_key C pw A2).1)) := by
  obtain ⟨s1, s2, s3, s4, s5, s6, s7⟩ :=
    new_private_key_step C db pw A master E k h_open h_pidx h_kidx h_master h_dec h_k h_lo h_hi
  refine ⟨s1, s2, s3, ?_⟩
  intro h_empty h_kidx2 A2
  have h_k1 : k = 1 := by
    rcases h_k with h | ⟨_, h⟩
    · rw [get_property_of_empty db _ h_empty] at h
      cases h
    · exact h
  subst h_k1
  obtain ⟨t1, _⟩ := new_private_key_step C (db.new_private_key C pw A).2 pw A2 master E 2
    s4 s5 (by rw [s6]; exact h_kidx2) s7 h_dec (Or.inl s2) (by decide) (by decide)
  refine ⟨s1, t1, ?_⟩
  intro h_inj
  rw [s1, t1]
  intro h_eq
  have := h_inj (Outcome.ok.inj h_eq)
  omega

/-- Witness of C10 on `master_db`: the first call returns the child of index 1, the
second the child of index 2. -/
theorem new_private_key_derives_next_child_witness :
    master_db.is_open = true ∧
    (master_db.new_private_key demo 42 900).1 = .ok (demo.child 43 1) ∧
    ((master_db.new_private_key demo 42 900).2.new_private_key demo 42 901).1 =
      .ok (demo.child 43 2) :=
  have h := new_private_key_derives_next_child demo master_db 42 900
    { index := 1, encrypted_key := 42 } 43 1 rfl (by decide) (by decide) rfl rfl
    (Or.inr ⟨rfl, rfl⟩) (by decide) (by decide)
  ⟨rfl, h.1, (h.2.2.2 (fun _ => rfl) (by decide) 901).2.1⟩

/-- Counterexample to C10 as stated. With the child counter holding `4294967301` the
call derives the child of index 5 and leaves the counter at 6; on a database that
holds a master key but is not open the call throws; where a newly constructed record
carries index 0 the call throws on the open database; and so it does where the key
record found at the address of the derived key carries index 0. -/
theorem new_private_key_counterexample :
    high_child_counter_db.wallet_master_key = some { index := 1, encrypted_key := 42 } ∧
    demo.decrypt_key { index := 1, encrypted_key := 42 } 42 = some 43 ∧
    high_child_counter_db.get_property .next_child_key_index = .int64 4294967301 ∧
    (high_child_counter_db.new_private_key demo 42 900).1 = .ok (demo.child 43 5) ∧
    (high_child_counter_db.new_private_key demo 42 900).1 ≠
      .ok (demo.child 43 4294967301) ∧
    (high_child_counter_db.new_private_key demo 42 900).2.get_property .next_child_key_index =
      .int64 6 ∧
    (closed_master_db.new_private_key demo 42 900).1 = .threw .not_open ∧
    (((wallet_db.init []).open_ zero_index_demo
      [(1, .master_key { index := 1, encrypted_key := 42 })]).2.new_private_key
        zero_index_demo 42 900).1 = .threw .zero_index ∧
    zero_index_derived_key_db.keys
      (demo.address_of (demo.get_public_key (demo.child 43 1))) =
      some { key_data.blank with public_key := 43002, index := 0 } ∧
    (zero_index_derived_key_db.new_private_key demo 42 900).1 = .threw .zero_index := by
  decide

/-! ### Keys after new_private_key -/

theorem store_key_keeps_absent (C : Collaborators) (db : wallet_db) (kd : key_data)
    (x : address) (h : db.keys x = none) : (db.store_key C kd).2.keys x = none := by
  unfold wallet_db.store_key
  cases h_k : db.keys (kd.get_address C) with
  | none => rw [(store_record_frame db _).2.1]; exact h
  | some old =>
    rw [(store_record_frame _ _).2.1]
    simp only [Map.set]
    split_ifs with h_x
    · subst h_x
      rw [h] at h_k
      cases h_k
    · exact h

theorem new_private_key_keeps_absent (C : Collaborators) (db : wallet_db) (pw : password)
    (A x : address) (h : db.keys x = none) : (db.new_private_key C pw A).2.keys x = none := by
  unfold wallet_db.new_private_key
  cases db.wallet_master_key with
  | none => exact h
  | some master =>
    simp only
    cases C.decrypt_key master pw with
    | none => exact h
    | some E =>
      simp only
      apply and_then_preserves (fun d => d.keys x = none)
      · rw [new_key_child_index_keys]; exact h
      · intro idx db1 h1
        apply and_then_preserves (fun d => d.keys x = none)
        · exact store_key_keeps_absent C db1 _ x h1
        · intro _ db2 h2
          exact h2

/-- C11, the behaviour of the code. `new_private_key` never adds an address to
`keys`: `store_key` only persists a record when none is found at the address. On the
database holding a master key, both of two consecutive calls return a key, and for
each of them `lookup_key` at the address of the returned key is empty and
`has_private_key` is false. -/
theorem new_private_key_leaves_keys_empty :
    (∀ (C : Collaborators) (db : wallet_db) (pw : password) (A x : address),
      db.keys x = none → (db.new_private_key C pw A).2.keys x = none) ∧
    (master_db.new_private_key demo 42 900).1 = .ok 43001 ∧
    (master_db.new_private_key demo 42 900).2.lookup_key
      (demo.address_of (demo.get_public_key 43001)) = none ∧
    ((master_db.new_private_key demo 42 900).2.has_private_key
      (demo.address_of (demo.get_public_key 43001))).1 = .ok false ∧
    ((master_db.new_private_key demo 42 900).2.new_private_key demo 42 900).1 = .ok 43002 ∧
    ((master_db.new_private_key demo 42 900).2.new_private_key demo 42 900).2.lookup_key
      (demo.address_of (demo.get_public_key 43002)) = none ∧
    (((master_db.new_private_key demo 42 900).2.new_private_key demo 42 900).2.has_private_key
      (demo.address_of (demo.get_public_key 43002))).1 = .ok false := by
  refine ⟨new_private_key_keeps_absent, by decide, by decide, by decide, by decide,
    by decide, by decide⟩


/-! ### Export and import -/

theorem store_append_of_lt (k : Int) (v : generic_wallet_record) (P : record_file)
    (h : ∀ e ∈ P, e.1 < k) : record_file.store k v P = P ++ [(k, v)] := by
  induction P with
  | nil => rfl
  | cons e P ih =>
    obtain ⟨k1, v1⟩ := e
    have h1 : k1 < k := h (k1, v1) (by simp)
    unfold record_file.store
    rw [if_neg (by omega), if_neg (by omega), ih (fun e he => h e (by simp [he]))]
    rfl

theorem store_generic_record_ok (db : wallet_db) (index : Int) (r : generic_wallet_record)
    (h_open : db.is_open = true) (h_idx : index ≠ 0) :
    db.store_generic_record index r = (.ok (), { db with _records :=
      { db._records with data := record_file.store index r db._records.data } }) := by
  unfold wallet_db.store_generic_record
  rw [if_neg (by simp [h_open]), if_neg h_idx]

theorem store_imported_ordered (r : record_file) :
    ∀ (P : record_file) (db : wallet_db), db.is_open = true → db._records.data = P →
      record_file.ordered (P ++ r) → record_file.self_indexed r →
      (store_imported db (r.map fun e => e.2)).1 = .ok () ∧
      (store_imported db (r.map fun e => e.2)).2._records.data = P ++ r ∧
      (store_imported db (r.map fun e => e.2)).2.is_open = true := by
  induction r with
  | nil => intro P db h_open h_data _ _; simp [store_imported, h_open, h_data]
  | cons e r ih =>
    intro P db h_open h_data h_ord h_self
    obtain ⟨h_e1, h_e2⟩ := h_self e (by simp)
    have h_lt : ∀ x ∈ P, x.1 < e.1 := by
      intro x hx
      exact (List.pairwise_append.1 h_ord).2.2 x hx e (by simp)
    simp only [List.map_cons, store_imported]
    rw [store_generic_record_ok db _ _ h_open (by rw [h_e1]; exact h_e2)]
    simp only [and_then]
    generalize h_db1 : ({ db with _records := { db._records with
      data := record_file.store e.2.get_index e.2 db._records.data } } : wallet_db) = db1
    have h_open1 : db1.is_open = true := by subst h_db1; exact h_open
    have h_data1 : db1._records.data = P ++ [e] := by
      subst h_db1
      show record_file.store e.2.get_index e.2 db._records.data = P ++ [e]
      rw [h_data, h_e1, store_append_of_lt e.1 e.2 P h_lt]
    have h_rest := ih (P ++ [e]) db1 h_open1 h_data1 (by simpa using h_ord)
      (fun x hx => h_self x (by simp [hx]))
    simpa using h_rest

/-- C12 (amended). For an open database whose store keeps every record under the
nonzero index the record carries, `export_to_json` returns and `create_from_json` of
the exported records on a path that does not exist returns and leaves a store with
exactly the same entries, property records included. -/
theorem export_then_import_restores_store (C : Collaborators) (db target : wallet_db)
    (h_open : db.is_open = true) (h_ord : db._records.data.ordered)
    (h_self : db._records.data.self_indexed) :
    ∃ f, db.export_to_json = .ok f ∧
      (target.create_from_json C f none).1 = .ok () ∧
      (target.create_from_json C f none).2.is_open = true ∧
      (target.create_from_json C f none).2._records.data = db._records.data := by
  refine ⟨db._records.data.map fun e => e.2, ?_, ?_⟩
  · simp [wallet_db.export_to_json, h_open]
  · obtain ⟨h1, h2, h3⟩ := store_imported_ordered db._records.data []
      (target.open_ C []).2 rfl rfl (by simpa using h_ord) h_self
    simp only [wallet_db.create_from_json, and_then]
    exact ⟨h1, h3, by simpa using h2⟩


/-- Witness of C12 on a database holding the record counter and an account record. -/
theorem export_then_import_restores_store_witness :
    exported_db.is_open = true ∧ exported_db._records.data.ordered ∧
    exported_db._records.data.self_indexed ∧
    exported_db._records.data.length = 2 ∧
    ∃ f, exported_db.export_to_json = .ok f ∧
      ((wallet_db.init []).create_from_json demo f none).1 = .ok () ∧
      ((wallet_db.init []).create_from_json demo f none).2.is_open = true ∧
      ((wallet_db.init []).create_from_json demo f none).2._records.data =
        exported_db._records.data :=
  ⟨by decide, by decide, by decide, by decide,
    export_then_import_restores_store demo exported_db (wallet_db.init [])
      (by decide) (by decide) (by decide)⟩

/-- Counterexample to C12 as stated. The store of `mismatched_key_db` maps index 1 to
a record that carries index 2: the import keeps that record under index 2 and nothing
under index 1. The store of `zero_payload_db` holds a record that carries index 0:
the import of its export throws. -/
theorem import_stores_under_carried_index :
    mismatched_key_db.is_open = true ∧
    record_file.fetch 1 mismatched_key_db._records.data =
      some (.account { index := 2, name := "alice", account_address := 500,
                       registered_name_id := 0 }) ∧
    mismatched_key_db.export_to_json =
      .ok [.account { index := 2, name := "alice", account_address := 500,
                      registered_name_id := 0 }] ∧
    ((wallet_db.init []).create_from_json demo
      [.account { index := 2, name := "alice", account_address := 500,
                  registered_name_id := 0 }] none).1 = .ok () ∧
    record_file.fetch 1 ((wallet_db.init []).create_from_json demo
      [.account { index := 2, name := "alice", account_address := 500,
                  registered_name_id := 0 }] none).2._records.data = none ∧
    zero_payload_db.export_to_json =
      .ok [.account { index := 0, name := "alice", account_address := 500,
                      registered_name_id := 0 }] ∧
    ((wallet_db.init []).create_from_json demo
      [.account { index := 0, name := "alice", account_address := 500,
                  registered_name_id := 0 }] none).1 = .threw .zero_index := by
  decide


/-! ### has_private_key, store_generic_record, unimplemented operations -/

/-- C13. `has_private_key a` returns, leaves the state as it is, yields false when
`keys` has no entry for `a`, and otherwise the `has_private_key` flag of the record
stored at `a`: false for a watch-only record, true only for a record that carries
private-key material. -/
theorem has_private_key_reads_key_flag (db : wallet_db) (a : address) :
    (db.has_private_key a).1.returned = true ∧
    (db.has_private_key a).2 = db ∧
    (db.keys a = none → (db.has_private_key a).1 = .ok false) ∧
    (∀ r, db.keys a = some r → (db.has_private_key a).1 = .ok r.has_private_key) ∧
    (∀ r, db.keys a = some r → r.encrypted_private_key = [] →
      (db.has_private_key a).1 = .ok false) ∧
    ((db.has_private_key a).1 = .ok true →
      ∃ r, db.keys a = some r ∧ r.encrypted_private_key ≠ []) := by
  unfold wallet_db.has_private_key
  cases h : db.keys a with
  | none => simp [Outcome.returned]
  | some r =>
    refine ⟨rfl, rfl, fun h_none => (by cases h_none), ?_, ?_, ?_⟩
    · intro r1 h_r
      cases h_r
      rfl
    · intro r1 h_r h_empty
      cases h_r
      simp [key_data.has_private_key, h_empty]
    · intro h_true
      refine ⟨r, rfl, ?_⟩
      intro h_empty
      simp [key_data.has_private_key, h_empty] at h_true

theorem fetch_store_other (k j : Int) (v : generic_wallet_record) (f : record_file)
    (h : j ≠ k) : record_file.fetch j (record_file.store k v f) = record_file.fetch j f := by
  induction f with
  | nil => simp [record_file.store, record_file.fetch, Ne.symm h]
  | cons e f ih =>
    obtain ⟨k1, v1⟩ := e
    unfold record_file.store
    split_ifs with h1 h2
    · simp [record_file.fetch, Ne.symm h]
    · subst h2
      simp [record_file.fetch, Ne.symm h]
    · simp [record_file.fetch, ih]

/-- C14. `store_generic_record index record` throws exactly when the store is not open
or `index` is 0, and then leaves the state as it is; when it returns, the persisted
record at `index` is `record`, the records at every other index are the previous ones,
and nothing but the persisted records has changed. -/
theorem store_generic_record_contract (db : wallet_db) (index : Int)
    (record : generic_wallet_record) :
    ((db.store_generic_record index record).1.returned = false ↔
      (db.is_open = false ∨ index = 0)) ∧
    ((db.store_generic_record index record).1.returned = false →
      (db.store_generic_record index record).2 = db) ∧
    ((db.store_generic_record index record).1.returned = true →
      record_file.fetch index (db.store_generic_record index record).2._records.data =
        some record ∧
      (∀ j, j ≠ index →
        record_file.fetch j (db.store_generic_record index record).2._records.data =
          record_file.fetch j db._records.data) ∧
      (db.store_generic_record index record).2.is_open = db.is_open ∧
      (db.store_generic_record index record).2 =
        { db with _records := (db.store_generic_record index record).2._records }) := by
  unfold wallet_db.store_generic_record
  by_cases h_open : db.is_open = false
  · simp [h_open, Outcome.returned]
  · by_cases h_idx : index = 0
    · simp [h_open, h_idx, Outcome.returned]
    · rw [if_neg h_open, if_neg h_idx]
      refine ⟨?_, ?_, ?_⟩
      · simp [Outcome.returned, h_open, h_idx]
      · intro h_thrown
        simp [Outcome.returned] at h_thrown
      · intro _
        exact ⟨fetch_store _ _ _, fun j hj => fetch_store_other _ _ _ _ hj, rfl, rfl⟩

/-- C15. Without a master key, and likewise with a master key that does not decrypt
under the given password, `new_private_key` throws and leaves the state as it is: the
child index counter is not advanced and nothing is persisted. -/
theorem new_private_key_requires_master_key (C : Collaborators) (db : wallet_db)
    (pw : password) (A : address)
    (h : db.wallet_master_key = none ∨
      ∃ m, db.wallet_master_key = some m ∧ C.decrypt_key m pw = none) :
    (db.new_private_key C pw A).1.returned = false ∧
    (db.new_private_key C pw A).2 = db ∧
    (db.wallet_master_key = none → (db.new_private_key C pw A).1 = .threw .no_master_key) := by
  unfold wallet_db.new_private_key
  rcases h with h | ⟨m, h1, h2⟩
  · simp [h, Outcome.returned]
  · simp [h1, h2, Outcome.returned]

/-- Witness of C15: no master key on the empty open database, and a wrong password on
the database that holds a master key. -/
theorem new_private_key_requires_master_key_witness :
    (empty_open_db.new_private_key demo 42 900).1 = .threw .no_master_key ∧
    (empty_open_db.new_private_key demo 42 900).2 = empty_open_db ∧
    (master_db.new_private_key demo 41 900).1.returned = false ∧
    (master_db.new_private_key demo 41 900).2 = master_db :=
  have h1 := new_private_key_requires_master_key demo empty_open_db 42 900 (Or.inl rfl)
  have h2 := new_private_key_requires_master_key demo master_db 41 900
    (Or.inr ⟨{ index := 1, encrypted_key := 42 }, rfl, by decide⟩)
  ⟨h1.2.2 rfl, h1.2.1, h2.1, h2.2.1⟩

/-- C16. `rename_account` and `store_transaction` throw for every state and every
argument, and leave the state as it is. -/
theorem unimplemented_operations_throw (db : wallet_db) (old_name new_name : String)
    (trx : wallet_other_record) :
    (db.rename_account old_name new_name).1 = .threw .not_implemented ∧
    (db.rename_account old_name new_name).2 = db ∧
    (db.store_transaction trx).1 = .threw .not_implemented ∧
    (db.store_transaction trx).2 = db :=
  ⟨rfl, rfl, rfl, rfl⟩


/-! ### The master key -/

theorem open_step_master_key (C : Collaborators) (db : wallet_db)
    (e : Int × generic_wallet_record) :
    (open_step C db e).wallet_master_key =
      match db.wallet_master_key with
      | some m => some m
      | none => (master_key_records [e]).head? := by
  obtain ⟨k, rec⟩ := e
  cases rec with
  | master_key m =>
    simp only [open_step, load_record, load_master_key_record, master_key_records]
    cases h : db.wallet_master_key <;> simp [h]
  | account a =>
    simp only [open_step, load_record, (load_account_record_frame db a).2.2.2,
      master_key_records]
    cases h : db.wallet_master_key <;> simp
  | key kr =>
    simp only [open_step, load_record, load_key_record, master_key_records]
    split_ifs <;> cases h : db.wallet_master_key <;> simp
  | transaction t =>
    simp only [open_step, load_record, master_key_records]
    cases h : db.wallet_master_key <;> simp
  | balance t =>
    simp only [open_step, load_record, master_key_records]
    cases h : db.wallet_master_key <;> simp
  | name t =>
    simp only [open_step, load_record, master_key_records]
    cases h : db.wallet_master_key <;> simp
  | asset t =>
    simp only [open_step, load_record, master_key_records]
    cases h : db.wallet_master_key <;> simp
  | property t =>
    simp only [open_step, load_record, master_key_records]
    cases h : db.wallet_master_key <;> simp

theorem open_fold_master_key (C : Collaborators) (f : record_file) :
    ∀ db : wallet_db, (f.foldl (open_step C) db).wallet_master_key =
      match db.wallet_master_key with
      | some m => some m
      | none => (master_key_records f).head? := by
  induction f with
  | nil => intro db; cases h : db.wallet_master_key <;> simp [master_key_records, h]
  | cons e f ih =>
    intro db
    have h_split : master_key_records (e :: f) =
        master_key_records [e] ++ master_key_records f := by
      simp [master_key_records, ← List.filterMap_append]
    rw [List.foldl_cons, ih, open_step_master_key, h_split]
    cases h : db.wallet_master_key with
    | some m => rfl
    | none =>
      cases h_e : master_key_records [e] with
      | nil => simp
      | cons m ms => simp

theorem master_key_records_mem (f : record_file) (k : Int) (m : wallet_master_key_record)
    (h : (k, generic_wallet_record.master_key m) ∈ f) : m ∈ master_key_records f := by
  unfold master_key_records
  rw [List.mem_filterMap]
  exact ⟨(k, .master_key m), h, rfl⟩

/-- C17. `load_master_key_record` throws exactly when `wallet_master_key` is already
set, and then leaves the state as it is; otherwise it sets the master key. After `open`
on a freshly constructed database the master key is the first master key record of the
file, later ones are ignored; in an ordered store that record is the master key record
with the smallest index. -/
theorem first_master_key_wins (C : Collaborators) (disk pre post : record_file) (k0 : Int)
    (m0 : wallet_master_key_record) (h_pre : master_key_records pre = []) :
    (∀ (db : wallet_db) (m : wallet_master_key_record),
      ((load_master_key_record db m).1.returned = false ↔
        db.wallet_master_key.isSome = true) ∧
      ((load_master_key_record db m).1.returned = false →
        (load_master_key_record db m).2 = db) ∧
      ((load_master_key_record db m).1.returned = true →
        (load_master_key_record db m).2.wallet_master_key = some m)) ∧
    ((wallet_db.init disk).open_ C (pre ++ (k0, .master_key m0) :: post)).2.wallet_master_key =
      some m0 ∧
    (record_file.ordered (pre ++ (k0, .master_key m0) :: post) →
      ∀ k m, (k, generic_wallet_record.master_key m) ∈ pre ++ (k0, .master_key m0) :: post →
        k0 ≤ k) := by
  refine ⟨?_, ?_, ?_⟩
  · intro db m
    unfold load_master_key_record
    cases h : db.wallet_master_key <;> simp [Outcome.returned]
  · simp only [wallet_db.open_]
    rw [open_fold_master_key]
    have h_split : master_key_records (pre ++ (k0, .master_key m0) :: post) =
        master_key_records pre ++ m0 :: master_key_records post := by
      simp [master_key_records, List.filterMap_append]
    simp [h_split, h_pre, wallet_db.init]
  · intro h_ord k m h_mem
    rw [List.mem_append, List.mem_cons] at h_mem
    rcases h_mem with h | h | h
    · have := master_key_records_mem pre k m h
      rw [h_pre] at this
      cases this
    · cases h
      exact le_refl _
    · have := (List.pairwise_append.1 h_ord).2.1
      rw [List.pairwise_cons] at this
      exact le_of_lt (this.1 (k, .master_key m) h)

/-- Witness of C17 on `two_master_keys_file`: the master key under index 3 is kept. -/
theorem first_master_key_wins_witness :
    master_key_records (two_master_keys_file.take 1) = [] ∧
    ((wallet_db.init []).open_ demo two_master_keys_file).2.wallet_master_key =
      some { index := 3, encrypted_key := 42 } :=
  ⟨by decide,
    (first_master_key_wins demo []
      [(2, .account { index := 2, name := "alice", account_address := 500,
                      registered_name_id := 0 })]
      [(6, .master_key { index := 6, encrypted_key := 43 })] 3
      { index := 3, encrypted_key := 42 } (by decide)).2.1⟩


/-! ### store_key on an existing record -/

/-- C18 (amended). When `keys` holds a record `R` at the address of the key to store,
`store_key` leaves the set of addresses in `keys` as it is, replaces the key data of
`R` and keeps its index, and leaves the entries at other addresses unchanged; on an
open database, when the index of `R` is not 0, the call returns and the updated record
is persisted under that same index; on a store that is not open, and on an open one
when the index of `R` is 0, the call throws after that update in memory and the
persisted records are the previous ones. -/
theorem store_key_updates_in_place (C : Collaborators) (db : wallet_db) (kd : key_data)
    (R : wallet_key_record) (h : db.keys (kd.get_address C) = some R) :
    (∀ a, ((db.store_key C kd).2.keys a).isSome = (db.keys a).isSome) ∧
    (db.store_key C kd).2.keys (kd.get_address C) =
      some { tokey_data := kd, index := R.index } ∧
    (∀ a, a ≠ kd.get_address C → (db.store_key C kd).2.keys a = db.keys a) ∧
    (db.is_open = true → R.index ≠ 0 →
      (db.store_key C kd).1 = .ok () ∧
      record_file.fetch R.index (db.store_key C kd).2._records.data =
        some (.key { tokey_data := kd, index := R.index })) ∧
    (db.is_open = false →
      (db.store_key C kd).1 = .threw .not_open ∧
      (db.store_key C kd).2._records = db._records) ∧
    (db.is_open = true → R.index = 0 →
      (db.store_key C kd).1 = .threw .zero_index ∧
      (db.store_key C kd).2._records = db._records) := by
  unfold wallet_db.store_key
  simp only [h]
  refine ⟨?_, ?_, ?_, ?_, ?_, ?_⟩
  · intro a
    rw [(store_record_frame _ _).2.1]
    simp only [Map.set]
    split_ifs with h_a
    · subst h_a
      simp [h]
    · rfl
  · rw [(store_record_frame _ _).2.1]
    simp [Map.set]
  · intro a h_a
    rw [(store_record_frame _ _).2.1]
    simp [Map.set, h_a]
  · intro h_open h_idx
    obtain ⟨s1, s2, _⟩ := store_record_indexed
      { db with keys := Map.set db.keys (kd.get_address C) { R with tokey_data := kd } }
      (.key { R with tokey_data := kd }) h_open h_idx
    exact ⟨s1, s2⟩
  · intro h_closed
    unfold wallet_db.store_record wallet_db.store_generic_record
    rw [if_pos (by simpa [wallet_db.is_open] using h_closed)]
    exact ⟨rfl, rfl⟩
  · intro h_open h_idx
    unfold wallet_db.store_record wallet_db.store_generic_record
    rw [if_neg (by simpa [wallet_db.is_open] using h_open),
      if_pos (by simpa [generic_wallet_record.get_index] using h_idx)]
    exact ⟨rfl, rfl⟩


/-- Witness of C18: the watch-only record of `key_db` receives the key data and stays
under index 5, in memory and in the store. -/
theorem store_key_updates_in_place_witness :
    key_db.keys (restored_key.get_address demo) =
      some { key_data.blank with public_key := 400, index := 5 } ∧
    (key_db.store_key demo restored_key).1 = .ok () ∧
    (key_db.store_key demo restored_key).2.keys 500 =
      some { tokey_data := restored_key, index := 5 } ∧
    record_file.fetch 5 (key_db.store_key demo restored_key).2._records.data =
      some (.key { tokey_data := restored_key, index := 5 }) :=
  have h := store_key_updates_in_place demo key_db restored_key
    { key_data.blank with public_key := 400, index := 5 } rfl
  ⟨rfl, (h.2.2.2.1 rfl (by decide)).1, h.2.1, (h.2.2.2.1 rfl (by decide)).2⟩

/-- Counterexample to C18 as stated. The record held at address 500 by
`zero_index_key_db` carries index 0: `store_key` updates it in memory, throws, and the
persisted records are the previous ones. On `closed_key_db`, whose store is not open,
`store_key` throws as well and persists nothing. -/
theorem store_key_update_not_persisted :
    zero_index_key_db.is_open = true ∧
    zero_index_key_db.keys (restored_key.get_address demo) =
      some { key_data.blank with public_key := 400, index := 0 } ∧
    (zero_index_key_db.store_key demo restored_key).1 = .threw .zero_index ∧
    (zero_index_key_db.store_key demo restored_key).2.keys 500 =
      some { tokey_data := restored_key, index := 0 } ∧
    (zero_index_key_db.store_key demo restored_key).2._records.data =
      [(5, .key { key_data.blank with public_key := 400, index := 0 })] ∧
    closed_key_db.keys (restored_key.get_address demo) =
      some { key_data.blank with public_key := 400, index := 4 } ∧
    (closed_key_db.store_key demo restored_key).1 = .threw .not_open ∧
    (closed_key_db.store_key demo restored_key).2._records.data = [] := by
  decide

/-! ### cache_balance -/

/-- C19, the behaviour of the code. When `lookup_balance` finds an entry for the id,
`cache_balance` returns and changes nothing. But `cache_balance` never writes to
`balances`: after a returning `cache_balance` of a balance with id 77, `lookup_balance`
still finds nothing for 77, and a second `cache_balance` with the same id stores
again, replacing the persisted balance 10 by 20. -/
theorem cache_balance_never_fills_balances :
    (∀ (C : Collaborators) (db : wallet_db) (b : balance_record),
      (db.lookup_balance b.id).isSome = true → db.cache_balance C b = (.ok (), db)) ∧
    (∀ (C : Collaborators) (db : wallet_db) (b : balance_record),
      (db.cache_balance C b).2.balances = db.balances) ∧
    (empty_open_db.cache_balance demo { id := 77, balance := 10 }).1 = .ok () ∧
    (empty_open_db.cache_balance demo { id := 77, balance := 10 }).2.lookup_balance 77 = none ∧
    (empty_open_db.cache_balance demo { id := 77, balance := 10 }).2._records.data =
      [(7, .balance { index := 7, id := 77, balance := 10 })] ∧
    ((empty_open_db.cache_balance demo { id := 77, balance := 10 }).2.cache_balance demo
      { id := 77, balance := 20 }).1 = .ok () ∧
    ((empty_open_db.cache_balance demo { id := 77, balance := 10 }).2.cache_balance demo
      { id := 77, balance := 20 }).2._records.data =
      [(7, .balance { index := 7, id := 77, balance := 20 })] := by
  refine ⟨?_, ?_, by decide, by decide, by decide, by decide, by decide⟩
  · intro C db b h
    unfold wallet_db.cache_balance
    cases h_b : db.lookup_balance b.id with
    | none => simp [h_b] at h
    | some r => rfl
  · intro C db b
    unfold wallet_db.cache_balance
    cases h_b : db.lookup_balance b.id with
    | none =>
      simp only
      unfold wallet_db.store_record wallet_db.store_generic_record
      split_ifs <;> rfl
    | some r => rfl


/-! ### add_contact_account never returns -/

theorem store_record_exceptions (db : wallet_db) (r : generic_wallet_record)
    (e : fc_exception) (h : (db.store_record r).1 = .threw e) : store_exception e := by
  unfold wallet_db.store_record wallet_db.store_generic_record at h
  unfold store_exception
  split_ifs at h
  · cases h; exact Or.inl rfl
  · cases h; exact Or.inr rfl

theorem new_index_exceptions (C : Collaborators) (db : wallet_db) (e : fc_exception)
    (h : (db.new_index C).1 = .threw e) : store_exception e := by
  unfold wallet_db.new_index at h
  simp only at h
  have h_sp := store_record_exceptions
  unfold wallet_db.set_property at h
  simp only at h
  split at h
  · cases h
  · rename_i e1 db1 h_eq
    cases h
    exact h_sp _ _ e (by rw [h_eq])

theorem new_index_state (C : Collaborators) (db : wallet_db) :
    ∃ v, (db.new_index C).2 = (db.set_property C .next_record_number v).2 := by
  unfold wallet_db.new_index
  simp only
  refine ⟨.int64 (to_int32 ((if (db.get_property .next_record_number).is_null then (1 : Int)
      else to_int32 (db.get_property .next_record_number).as_int64) + 1)), ?_⟩
  rcases db.set_property C .next_record_number
    (.int64 (to_int32 ((if (db.get_property .next_record_number).is_null then (1 : Int)
      else to_int32 (db.get_property .next_record_number).as_int64) + 1))) with ⟨o, db1⟩
  cases o <;> rfl

theorem new_index_keys (C : Collaborators) (db : wallet_db) :
    (db.new_index C).2.keys = db.keys := by
  obtain ⟨v, h_state⟩ := new_index_state C db
  rw [h_state]
  unfold wallet_db.set_property
  exact (store_record_frame _ _).2.1

theorem store_key_exceptions (C : Collaborators) (db : wallet_db) (kd : key_data)
    (e : fc_exception) (h : (db.store_key C kd).1 = .threw e) : store_exception e := by
  unfold wallet_db.store_key at h
  cases h_k : db.keys (kd.get_address C) with
  | none => rw [h_k] at h; exact store_record_exceptions _ _ e h
  | some old => rw [h_k] at h; exact store_record_exceptions _ _ e h

theorem and_then_exceptions {α β : Type} (Q : wallet_db → Prop) (S : fc_exception → Prop)
    (r : Outcome α × wallet_db) (k : α → wallet_db → Outcome β × wallet_db)
    (h_Q : Q r.2) (h_r : ∀ e, r.1 = .threw e → S e)
    (h_k : ∀ a db, Q db → ∀ e, (k a db).1 = .threw e → S e) :
    ∀ e, (and_then r k).1 = .threw e → S e := by
  obtain ⟨o, db⟩ := r
  cases o with
  | ok a => exact h_k a db h_Q
  | threw e1 =>
    intro e h
    exact h_r e (by simpa [and_then] using h)

theorem and_then_throws {α β : Type} (Q : wallet_db → Prop) (S : fc_exception → Prop)
    (r : Outcome α × wallet_db) (k : α → wallet_db → Outcome β × wallet_db)
    (h_Q : Q r.2) (h_r : ∀ e, r.1 = .threw e → S e)
    (h_k : ∀ a db, Q db → ∃ e, (k a db).1 = .threw e ∧ S e) :
    ∃ e, (and_then r k).1 = .threw e ∧ S e := by
  obtain ⟨o, db⟩ := r
  cases o with
  | ok a => exact h_k a db h_Q
  | threw e1 => exact ⟨e1, rfl, h_r e1 rfl⟩

theorem add_contact_key_exceptions (C : Collaborators) (db : wallet_db)
    (key : public_key_type) (e : fc_exception)
    (h : (add_contact_key C db key).1 = .threw e) : store_exception e := by
  unfold add_contact_key at h
  cases h_k : db.lookup_key (C.address_of key) with
  | some current => rw [h_k] at h; exact store_record_exceptions _ _ e h
  | none =>
    rw [h_k] at h
    simp only at h
    refine and_then_exceptions (fun d => d.keys (C.address_of key) = none) store_exception
      _ _ ?_ (new_index_exceptions C db) ?_ e h
    · show (db.new_index C).2.keys (C.address_of key) = none
      rw [new_index_keys]; exact h_k
    · intro index db1 h1
      refine and_then_exceptions (fun d => d.keys (C.address_of key) = none) store_exception
        _ _ ?_ (store_key_exceptions C db1 _) ?_
      · exact store_key_keeps_absent C db1 _ _ h1
      · intro _ db2 h2 e2 h_e2
        unfold load_key_record at h_e2
        simp [h2] at h_e2


theorem load_account_record_rejects_mapped_address (db : wallet_db)
    (a : wallet_account_record) (h : (db.address_to_account a.account_address).isSome = true) :
    (load_account_record db a).1 = .threw .address_already_mapped := by
  unfold load_account_record
  simp [h]

/-- C20 (amended). `add_contact_account` never returns. It throws at its first
assertion when the name is not in `name_to_account`, at its second when the name is
mapped and the address is not in `address_to_account`; when both are mapped it throws
inside `load_account_record` because the address is already mapped, unless a store or
an index allocation before it has thrown (store not open, or index 0). -/
theorem add_contact_account_never_returns (C : Collaborators) (db : wallet_db)
    (name : String) (key : public_key_type) :
    (db.add_contact_account C name key).1.returned = false ∧
    (db.name_to_account name = none →
      db.add_contact_account C name key = (.threw .name_not_found, db)) ∧
    ((db.name_to_account name).isSome = true →
      db.address_to_account (C.address_of key) = none →
      db.add_contact_account C name key = (.threw .address_not_found, db)) ∧
    ((db.name_to_account name).isSome = true →
      (db.address_to_account (C.address_of key)).isSome = true →
      (db.add_contact_account C name key).1 = .threw .address_already_mapped ∨
      (db.add_contact_account C name key).1 = .threw .not_open ∨
      (db.add_contact_account C name key).1 = .threw .zero_index) := by
  have h_both : (db.name_to_account name).isSome = true →
      (db.address_to_account (C.address_of key)).isSome = true →
      ∃ e, (db.add_contact_account C name key).1 = .threw e ∧
        (e = .address_already_mapped ∨ store_exception e) := by
    intro h_name h_addr
    unfold wallet_db.add_contact_account
    rw [if_neg (by cases h : db.name_to_account name <;> simp_all),
      if_neg (by cases h : db.address_to_account (C.address_of key) <;> simp_all)]
    refine and_then_throws
      (fun d => (d.address_to_account (C.address_of key)).isSome = true) _ _ _ ?_
      (fun e h => Or.inr (add_contact_key_exceptions C db key e h)) ?_
    · show ((add_contact_key C db key).2.address_to_account (C.address_of key)).isSome = true
      rw [(add_contact_key_same_account_maps C db key).2.1]
      exact h_addr
    · intro _ db1 h1
      refine and_then_throws
        (fun d => (d.address_to_account (C.address_of key)).isSome = true) _ _ _ ?_
        (fun e h => Or.inr (new_index_exceptions C db1 e h)) ?_
      · show ((db1.new_index C).2.address_to_account (C.address_of key)).isSome = true
        rw [(new_index_same_account_maps C db1).2.1]
        exact h1
      · intro index db2 h2
        refine and_then_throws
          (fun d => (d.address_to_account (C.address_of key)).isSome = true) _ _ _ ?_
          (fun e h => Or.inr (store_record_exceptions db2 _ e h)) ?_
        · show ((db2.store_record _).2.address_to_account (C.address_of key)).isSome = true
          rw [(store_record_same_account_maps db2 _).2.1]
          exact h2
        · intro _ db3 h3
          exact ⟨_, load_account_record_rejects_mapped_address db3 _ h3, Or.inl rfl⟩
  refine ⟨?_, ?_, ?_, ?_⟩
  · cases h_name : db.name_to_account name with
    | none => simp [wallet_db.add_contact_account, h_name, Outcome.returned]
    | some i =>
      cases h_addr : db.address_to_account (C.address_of key) with
      | none => simp [wallet_db.add_contact_account, h_name, h_addr, Outcome.returned]
      | some j =>
        obtain ⟨e, h_e, _⟩ := h_both (by simp [h_name]) (by simp [h_addr])
        rw [h_e]
        rfl
  · intro h_name
    simp [wallet_db.add_contact_account, h_name]
  · intro h_name h_addr
    unfold wallet_db.add_contact_account
    rw [if_neg (by cases h : db.name_to_account name <;> simp_all),
      if_pos (by simp [h_addr])]
  · intro h_name h_addr
    obtain ⟨e, h_e, h_S⟩ := h_both h_name h_addr
    rw [h_e]
    rcases h_S with h | h | h
    · exact Or.inl (by rw [h])
    · exact Or.inr (Or.inl (by rw [h]))
    · exact Or.inr (Or.inr (by rw [h]))

/-- Witness of C20 on the database holding the account "alice": with both the name
and the address mapped the call throws inside `load_account_record`; with an unknown
name it throws at the first assertion. -/
theorem add_contact_account_never_returns_witness :
    (alice_db.add_contact_account demo "alice" 400).1 = .threw .address_already_mapped ∧
    (alice_db.add_contact_account demo "bob" 400).1.returned = false ∧
    alice_db.add_contact_account demo "bob" 400 = (.threw .name_not_found, alice_db) :=
  ⟨by decide, (add_contact_account_never_returns demo alice_db "bob" 400).1,
    (add_contact_account_never_returns demo alice_db "bob" 400).2.1 (by decide)⟩

/-- Counterexample to C20 as stated. On `negative_counter_db` the name "alice" and the
address of key 400 are both mapped, and the record counter holds -1: the second index
allocated is 0, and the call throws in `store_generic_record`, before
`load_account_record` is reached. -/
theorem add_contact_account_throws_before_load :
    negative_counter_db.is_open = true ∧
    negative_counter_db.name_to_account "alice" = some 1 ∧
    negative_counter_db.address_to_account (demo.address_of 400) = some 1 ∧
    negative_counter_db.get_property .next_record_number = .int64 (-1) ∧
    (negative_counter_db.add_contact_account demo "alice" 400).1 = .threw .zero_index ∧
    (negative_counter_db.add_contact_account demo "alice" 400).1 ≠
      .threw .address_already_mapped := by
  decide

end bts.wallet
